import Mathlib

/-!
# Verification of the balance-forecast engine (`src/lib/forecast.ts`)

Shallow embedding of the TypeScript forecast engine.  Conventions used
throughout:

* JS `number` values (amounts, balances) are modelled as `ℚ`.
* Timestamps are modelled as the integer millisecond value that
  `new Date(ts).getTime()` yields; the source compares timestamps only
  through `getTime()`, so for well-formed ISO-8601 inputs this is exact.
  `toIsoTimestamp` followed by `toUtcDate` is the identity on this model.
* JS objects used as string-keyed records are modelled as association
  lists with in-place overwrite (`recordSet`), which reproduces the JS
  insertion-order semantics for the non-integer-like keys this program
  uses; `recordGet?` is property read, `·.isSome` is `hasOwnProperty`.
* `throw` is modelled by `Except String`.
* JS `Array.prototype.sort`, which ES2019+ requires to be stable, is
  modelled by a stable insertion sort over the boolean comparator.
* The week key, a `YYYY-MM-DD` date string in the source, is modelled by
  the day number since the Unix epoch of that calendar date; for dates in
  years 1000–9999 the lexicographic order of the strings agrees with the
  numeric order of the day numbers.
-/
/-! ## Data model (`forecast.ts` lines 1–77) -/
/-- `Occurrence`: a dated signed cash movement of one account. -/
structure Occurrence where
  accountSlug : String
  amount : ℚ
  timestamp : Int
deriving DecidableEq

/-- `AnchorCheckpoint`: an externally observed balance at an instant. -/
structure AnchorCheckpoint where
  id : String
  accountSlug : String
  balance : ℚ
  timestamp : Int
deriving DecidableEq

/-- The `source` tag of `AnchorMetadata`. -/
inductive AnchorSource where
  | checkpoint
  | rollforward
  | initial
deriving DecidableEq

/-- `AnchorMetadata`: the balance and instant a window's computation is
anchored at. -/
structure AnchorMetadata where
  balance : ℚ
  timestamp : Int
  source : AnchorSource
  checkpointId : Option String
  isInterim : Bool
deriving DecidableEq

/-- `EndingBalanceCell`: one monthly balance cell. -/
structure EndingBalanceCell where
  ym : String
  accountSlug : String
  beginningBalance : ℚ
  balance : ℚ
  netAfterAnchor : ℚ
  anchor : AnchorMetadata
deriving DecidableEq

/-- `WeeklyBalanceCell`: one weekly balance cell.  `weekKey` is the epoch
day number of the week-ending date (a `YYYY-MM-DD` string in the source). -/
structure WeeklyBalanceCell where
  ym : String
  accountSlug : String
  weekKey : Int
  beginningBalance : ℚ
  balance : ℚ
  netAfterAnchor : ℚ
  anchor : AnchorMetadata
deriving DecidableEq

/-! ## JS records as association lists -/
/-- Property read on a JS record (`obj[k]`, `undefined` ↦ `none`). -/
def recordGet? {κ α : Type} [DecidableEq κ] : List (κ × α) → κ → Option α
  | [], _ => none
  | (k', v) :: rest, k => if k' = k then some v else recordGet? rest k

/-- Property write on a JS record (`obj[k] = v`): overwrite in place if the
key exists, else append, matching JS insertion-order key semantics. -/
def recordSet {κ α : Type} [DecidableEq κ] : List (κ × α) → κ → α → List (κ × α)
  | [], k, v => [(k, v)]
  | (k', v') :: rest, k, v =>
    if k' = k then (k, v) :: rest else (k', v') :: recordSet rest k v

/-- JS `Object.keys` of a record modelled as an association list (a JS
object never repeats a key, so shadowed entries are dropped). -/
def objKeys {κ α : Type} [DecidableEq κ] (m : List (κ × α)) : List κ := (m.map (·.1)).dedup

/-- The running-balance state (account slug ↦ current ending balance). -/
abbrev BalMap := List (String × ℚ)

/-! ## Strings: the JS comparisons the source relies on

`String.lt` in Lean does not reduce in the kernel, so the JS code-unit
comparison used by `Array.prototype.sort()`'s default comparator is
modelled directly on the character lists.  For the ASCII identifiers this
program sorts (`YYYY-MM` strings, account slugs) this is exactly the JS
order. -/
/-- Lexicographic code-unit comparison of char lists (JS `a < b` on strings). -/
def charsLt : List Char → List Char → Bool
  | _, [] => false
  | [], _ :: _ => true
  | a :: as, b :: bs =>
    if a.val < b.val then true
    else if a = b then charsLt as bs
    else false

/-- JS string `a <= b` (used as the ascending sort comparator). -/
def jsStrLe (a b : String) : Bool := !charsLt b.data a.data

/-- Stable insertion into a list sorted by the boolean comparator `le`:
`x` goes in front of the first element `y` with `le x y`.  Inserting the
originally-earlier element this way preserves input order on ties, which is
exactly the ES2019+ stable-sort guarantee the source relies on. -/
def insertLe {α : Type} (le : α → α → Bool) (x : α) : List α → List α
  | [] => [x]
  | y :: ys => if le x y then x :: y :: ys else y :: insertLe le x ys

/-- Stable insertion sort: the model of `Array.prototype.sort` with an
ascending comparator. -/
def sortLe {α : Type} (le : α → α → Bool) : List α → List α
  | [] => []
  | x :: xs => insertLe le x (sortLe le xs)

/-! ## Month-identifier parsing (`startOfMonth` / `monthEndExclusive`)

The source does `ym.split('-').map(Number)` and rejects the identifier when
the destructured `year` or `month` is falsy (`0`, `NaN`, or `undefined`).
`split('-')` removes every dash, so a component can never carry a sign.
`Number(component)` is modelled here on the fragment the program's inputs
live in: the empty component maps to `0`, a component of decimal digits maps
to its value, and every other component maps to `NaN` (`none`).  (Exotic JS
numeric forms — hex, exponents, `Infinity`, embedded whitespace — are
outside this fragment; theorems quantifying over identifiers restrict to
digit components.) -/
/-- Split a character list at `'-'` (JS `str.split('-')`). -/
def splitDashChars : List Char → List Char → List String
  | [], acc => [String.mk acc.reverse]
  | c :: cs, acc =>
    if c = '-' then String.mk acc.reverse :: splitDashChars cs []
    else splitDashChars cs (c :: acc)

/-- JS `ym.split('-')`. -/
def splitDash (s : String) : List String := splitDashChars s.data []

/-- Decimal value of a digit list, `none` if some char is not a digit. -/
def digitsToNat? : List Char → Option Nat
  | [] => some 0
  | c :: cs =>
    if c.isDigit then
      (digitsToNat? cs).map (fun n => (c.toNat - '0'.toNat) * 10 ^ cs.length + n)
    else none

/-- JS `Number(component)` on a dash-free component: `''` is `0`, digit
strings are their value, anything else is `NaN` (`none`). -/
def jsNumber? (s : String) : Option Nat := digitsToNat? s.data

/-- The year/month pair `startOfMonth`/`monthEndExclusive` destructure, or
`none` when the source would throw `Invalid month identifier`. -/
def parseYM (ym : String) : Option (Int × Int) :=
  let parts := splitDash ym
  match (parts.get? 0).bind jsNumber?, (parts.get? 1).bind jsNumber? with
  | some y, some m => if y = 0 ∨ m = 0 then none else some ((y : Int), (m : Int))
  | _, _ => none

/-- The identifier fragment on which `Number()` is modelled exactly: every
dash-separated component is a (possibly empty) string of decimal digits.
Outside this fragment `Number()` accepts further numeric forms (decimals,
hex, exponents, signs, whitespace) that the model maps to `NaN`, so
theorems about arbitrary identifiers are restricted to it. -/
def digitFrags (ym : String) : Prop :=
  ∀ s ∈ splitDash ym, ∀ c ∈ s.data, c.isDigit = true

instance (ym : String) : Decidable (digitFrags ym) := by
  unfold digitFrags
  infer_instance

/-! ## The UTC calendar (ECMA-262 `Date.UTC`)

`Date.UTC(year, monthIndex, 1)` per the ECMAScript specification:
`MakeFullYear` maps 0–99 to 1900–1999, `MakeDay` normalizes the month index
into the year and adds `DayFromYear` and the in-year month offset.  All
divisions below are floor divisions (Lean's `Int` `/`), as in the spec. -/
/-- ECMA-262 `DayFromYear`. -/
def dayFromYear (y : Int) : Int :=
  365 * (y - 1970) + (y - 1969) / 4 - (y - 1901) / 100 + (y - 1601) / 400

/-- ECMA-262 `InLeapYear` (via `DaysInYear`). -/
def isLeapYear (y : Int) : Bool := y % 4 = 0 ∧ (¬ y % 100 = 0 ∨ y % 400 = 0)

/-- Day of year of the first day of 0-based month `mn` (`mn` in 0–11). -/
def monthOffset (leap : Bool) (mn : Int) : Int :=
  (if mn ≤ 0 then 0
   else if mn = 1 then 31
   else if mn = 2 then 59
   else if mn = 3 then 90
   else if mn = 4 then 120
   else if mn = 5 then 151
   else if mn = 6 then 181
   else if mn = 7 then 212
   else if mn = 8 then 243
   else if mn = 9 then 273
   else if mn = 10 then 304
   else 334) +
  (if leap ∧ 2 ≤ mn then 1 else 0)

/-- ECMA-262 `MakeDay(y, m, 1)`: epoch day of the first day of 0-based
month `m` of year `y`, normalizing `m` into the year. -/
def makeDay (y m : Int) : Int :=
  let ym := y + m / 12
  let mn := m % 12
  dayFromYear ym + monthOffset (isLeapYear ym) mn

/-- Milliseconds per day. -/
def dayMs : Int := 86400000

/-- `Date.UTC(year, monthIndex, 1)` in milliseconds (with the 1900 rule for
two-digit years). -/
def dateUtcMs (year monthIndex : Int) : Int :=
  let yr := if 0 ≤ year ∧ year ≤ 99 then 1900 + year else year
  makeDay yr monthIndex * dayMs

/-- `startOfMonth`: the window start of a month identifier, or the
`Invalid month identifier` error. -/
def startOfMonthE (ym : String) : Except String Int :=
  match parseYM ym with
  | none => .error ("Invalid month identifier: " ++ ym)
  | some (y, m) => .ok (dateUtcMs y (m - 1))

/-- `monthEndExclusive`: the exclusive window end of a month identifier. -/
def monthEndExclusiveE (ym : String) : Except String Int :=
  match parseYM ym with
  | none => .error ("Invalid month identifier: " ++ ym)
  | some (y, m) => .ok (dateUtcMs y m)

/-! ## Window filters and the anchor/aggregation core
(`forecast.ts` lines 115–162 and the per-account body shared verbatim by
`computeEndingBalances` (181–230) and `computeWeeklyBalances` (291–345)). -/
/-- `filterOccurrencesForWindow`. -/
def filterOccurrencesForWindow (occurrences : List Occurrence) (account : String)
    (windowStart windowEnd : Int) : List Occurrence :=
  occurrences.filter (fun occ =>
    occ.accountSlug = account ∧ windowStart ≤ occ.timestamp ∧ occ.timestamp < windowEnd)

/-- `filterCheckpointsForWindow`. -/
def filterCheckpointsForWindow (checkpoints : List AnchorCheckpoint) (account : String)
    (windowStart windowEnd : Int) : List AnchorCheckpoint :=
  checkpoints.filter (fun cp =>
    cp.accountSlug = account ∧ windowStart ≤ cp.timestamp ∧ cp.timestamp < windowEnd)

/-- The ascending-timestamp comparator of `sortIsoStrings`. -/
def cpLeTs (a b : AnchorCheckpoint) : Bool := a.timestamp ≤ b.timestamp

/-- `sortIsoStrings`: JS stable sort of checkpoints by ascending timestamp. -/
def sortIsoStrings (items : List AnchorCheckpoint) : List AnchorCheckpoint :=
  sortLe cpLeTs items

/-- The occurrence filter applied after the anchor is resolved: drop
occurrences before the anchor instant, and drop an occurrence exactly at the
anchor instant when the anchor is a checkpoint. -/
def keepAfterAnchor (anchor : AnchorMetadata) (occ : Occurrence) : Bool :=
  if occ.timestamp < anchor.timestamp then false
  else if anchor.source = AnchorSource.checkpoint ∧ occ.timestamp = anchor.timestamp then false
  else true

/-- The anchor, net activity and ending balance of one (window, account)
pair.  `prior` is `priorBalances[account]` (`none` when the account is not a
key of the running-balance state: `hasOwnProperty` is `prior.isSome`). -/
structure CellResult where
  anchor : AnchorMetadata
  netAfterAnchor : ℚ
  endingBalance : ℚ
deriving DecidableEq

/-- The anchor resolution of the source's per-account body (lines 187–207
monthly, 302–322 weekly): the stably-sorted last in-window checkpoint when
one exists, else the roll-forward / uninitialized start-of-window anchor. -/
def resolveAnchor (checkpoints : List AnchorCheckpoint) (prior : Option ℚ)
    (account : String) (wStart wEnd : Int) : AnchorMetadata :=
  match (sortIsoStrings (filterCheckpointsForWindow checkpoints account wStart wEnd)).getLast? with
  | some latestCheckpoint =>
    { balance := latestCheckpoint.balance
      timestamp := latestCheckpoint.timestamp
      source := .checkpoint
      checkpointId := some latestCheckpoint.id
      isInterim := wStart < latestCheckpoint.timestamp }
  | none =>
    { balance := prior.getD 0
      timestamp := wStart
      source := if prior.isSome then .rollforward else .initial
      checkpointId := none
      isInterim := false }

/-- The activity aggregation of the source's per-account body (lines
209–217 monthly, 324–332 weekly): `netAfterAnchor`. -/
def netAfter (occurrences : List Occurrence) (anchor : AnchorMetadata)
    (account : String) (wStart wEnd : Int) : ℚ :=
  ((filterOccurrencesForWindow occurrences account wStart wEnd).filter
    (keepAfterAnchor anchor)).foldl (fun sum occ => sum + occ.amount) 0

/-- The per-(window, account) body shared by the monthly and the weekly
loop of the source: resolve the anchor, sum the post-anchor activity,
produce the ending balance. -/
def computeCell (occurrences : List Occurrence) (checkpoints : List AnchorCheckpoint)
    (prior : Option ℚ) (account : String) (wStart wEnd : Int) : CellResult :=
  let anchor := resolveAnchor checkpoints prior account wStart wEnd
  let netAfterAnchor := netAfter occurrences anchor account wStart wEnd
  { anchor := anchor, netAfterAnchor := netAfterAnchor,
    endingBalance := anchor.balance + netAfterAnchor }

/-- `listAccounts`: sorted union of the accounts of occurrences,
checkpoints and the prior-balance map. -/
def listAccounts (occurrences : List Occurrence) (checkpoints : List AnchorCheckpoint)
    (priorEndingBalances : BalMap) : List String :=
  sortLe jsStrLe
    ((occurrences.map (·.accountSlug) ++ checkpoints.map (·.accountSlug) ++
      priorEndingBalances.map (·.1)).dedup)

/-! ## `computeEndingBalances` (`forecast.ts` lines 164–237) -/
/-- The month→account→cell result of `computeEndingBalances`. -/
abbrev MonthlyMap := List (String × List (String × EndingBalanceCell))

/-- Build an `EndingBalanceCell` from a `CellResult`. -/
def mkMonthCell (ym account : String) (r : CellResult) : EndingBalanceCell :=
  { ym := ym, accountSlug := account, beginningBalance := r.anchor.balance,
    balance := r.endingBalance, netAfterAnchor := r.netAfterAnchor, anchor := r.anchor }

/-- The inner account loop of `computeEndingBalances`: build each account's
cell and write its ending balance back into the running-balance state. -/
def processMonthAccounts (occurrences : List Occurrence)
    (checkpoints : List AnchorCheckpoint) (ym : String) (wStart wEnd : Int) :
    List String → BalMap → List (String × EndingBalanceCell) →
      List (String × EndingBalanceCell) × BalMap
  | [], bal, cells => (cells, bal)
  | account :: rest, bal, cells =>
    let r := computeCell occurrences checkpoints (recordGet? bal account) account wStart wEnd
    processMonthAccounts occurrences checkpoints ym wStart wEnd rest
      (recordSet bal account r.endingBalance)
      (recordSet cells account (mkMonthCell ym account r))

/-- The month loop of `computeEndingBalances` over the already-sorted month
list, threading the running-balance state. -/
def ebGo (occurrences : List Occurrence) (checkpoints : List AnchorCheckpoint)
    (accounts : List String) :
    List String → BalMap → MonthlyMap → Except String MonthlyMap
  | [], _, acc => .ok acc
  | ym :: rest, bal, acc =>
    match parseYM ym with
    | none => .error ("Invalid month identifier: " ++ ym)
    | some (y, m) =>
      let out := processMonthAccounts occurrences checkpoints ym
        (dateUtcMs y (m - 1)) (dateUtcMs y m) accounts bal []
      ebGo occurrences checkpoints accounts rest out.2 (recordSet acc ym out.1)

/-- `computeEndingBalances`. -/
def computeEndingBalances (months : List String) (occurrences : List Occurrence)
    (priorEndingBalances : BalMap) (checkpoints : List AnchorCheckpoint) :
    Except String MonthlyMap :=
  ebGo occurrences checkpoints (listAccounts occurrences checkpoints priorEndingBalances)
    (sortLe jsStrLe months) priorEndingBalances []

/-! ## `computeWeeksInMonth` (`forecast.ts` lines 239–270)

The source's `while` loop is modelled with explicit fuel; each iteration
advances the cursor by at least one day, so
`(monthEnd - monthStart) / dayMs + 2` iterations always complete the walk
(`weeksGo_bounded` below makes that exact). -/
/-- One half-open weekly window; `weekKey` is the epoch day of the
week-ending date. -/
structure WeekWindow where
  wStart : Int
  wEnd : Int
  weekKey : Int
deriving DecidableEq

/-- The tentative week end of one loop iteration: the next Sunday at the
cursor's time of day (`(7 − weekday)` days ahead), bumped a full week when
the cursor itself is a Sunday (`getUTCDay` is `(day + 4) mod 7` on the epoch
day number). -/
def nextWeekEnd (cursor : Int) : Int :=
  let dayOfWeek := (cursor / dayMs + 4) % 7
  let weekEnd0 := cursor + (if dayOfWeek = 0 then 0 else 7 - dayOfWeek) * dayMs
  if weekEnd0 ≤ cursor then weekEnd0 + 7 * dayMs else weekEnd0

/-- The body of the `while` loop of `computeWeeksInMonth`. -/
def weeksGo (monthEnd : Int) : Nat → Int → List WeekWindow
  | 0, _ => []
  | fuel + 1, cursor =>
    if cursor < monthEnd then
      let exclusiveEnd := min (nextWeekEnd cursor + dayMs) monthEnd
      { wStart := cursor, wEnd := exclusiveEnd, weekKey := (exclusiveEnd - dayMs) / dayMs }
        :: weeksGo monthEnd fuel exclusiveEnd
    else []

/-- `computeWeeksInMonth`. -/
def computeWeeksInMonth (ym : String) : Except String (List WeekWindow) :=
  match parseYM ym with
  | none => .error ("Invalid month identifier: " ++ ym)
  | some (y, m) =>
    let monthStart := dateUtcMs y (m - 1)
    let monthEnd := dateUtcMs y m
    .ok (weeksGo monthEnd (((monthEnd - monthStart) / dayMs).toNat + 2) monthStart)

/-! ## `computeWeeklyBalances` (`forecast.ts` lines 272–355) -/
/-- weekKey→account→cell for one month. -/
abbrev WeeklyMonthMap := List (Int × List (String × WeeklyBalanceCell))

/-- The month→weekKey→account→cell result of `computeWeeklyBalances`. -/
abbrev WeeklyMap := List (String × WeeklyMonthMap)

/-- Build a `WeeklyBalanceCell` from a `CellResult`. -/
def mkWeekCell (ym account : String) (weekKey : Int) (r : CellResult) : WeeklyBalanceCell :=
  { ym := ym, accountSlug := account, weekKey := weekKey,
    beginningBalance := r.anchor.balance, balance := r.endingBalance,
    netAfterAnchor := r.netAfterAnchor, anchor := r.anchor }

/-- The inner account loop of `computeWeeklyBalances` for one week. -/
def processWeekAccounts (occurrences : List Occurrence)
    (checkpoints : List AnchorCheckpoint) (ym : String) (week : WeekWindow) :
    List String → BalMap → List (String × WeeklyBalanceCell) →
      List (String × WeeklyBalanceCell) × BalMap
  | [], bal, cells => (cells, bal)
  | account :: rest, bal, cells =>
    let r := computeCell occurrences checkpoints (recordGet? bal account) account
      week.wStart week.wEnd
    processWeekAccounts occurrences checkpoints ym week rest
      (recordSet bal account r.endingBalance)
      (recordSet cells account (mkWeekCell ym account week.weekKey r))

/-- The week loop of `computeWeeklyBalances` for one month. -/
def processWeeks (occurrences : List Occurrence) (checkpoints : List AnchorCheckpoint)
    (ym : String) (accounts : List String) :
    List WeekWindow → BalMap → WeeklyMonthMap → WeeklyMonthMap × BalMap
  | [], bal, acc => (acc, bal)
  | week :: rest, bal, acc =>
    let out := processWeekAccounts occurrences checkpoints ym week accounts bal []
    processWeeks occurrences checkpoints ym accounts rest out.2
      (recordSet acc week.weekKey out.1)

/-- The month loop of `computeWeeklyBalances`. -/
def wbGo (occurrences : List Occurrence) (checkpoints : List AnchorCheckpoint)
    (accounts : List String) :
    List String → BalMap → WeeklyMap → Except String WeeklyMap
  | [], _, acc => .ok acc
  | ym :: rest, bal, acc =>
    match parseYM ym with
    | none => .error ("Invalid month identifier: " ++ ym)
    | some (y, m) =>
      let monthStart := dateUtcMs y (m - 1)
      let monthEnd := dateUtcMs y m
      let weeks := weeksGo monthEnd (((monthEnd - monthStart) / dayMs).toNat + 2) monthStart
      let out := processWeeks occurrences checkpoints ym accounts weeks bal []
      wbGo occurrences checkpoints accounts rest out.2 (recordSet acc ym out.1)

/-- `computeWeeklyBalances`. -/
def computeWeeklyBalances (months : List String) (occurrences : List Occurrence)
    (priorEndingBalances : BalMap) (checkpoints : List AnchorCheckpoint) :
    Except String WeeklyMap :=
  wbGo occurrences checkpoints (listAccounts occurrences checkpoints priorEndingBalances)
    (sortLe jsStrLe months) priorEndingBalances []

/-! ## The continuity verifiers (`forecast.ts` lines 357–416) -/
/-- `almostEqual` with the default tolerance `0.01`. -/
def almostEqual (a b : ℚ) : Prop := |a - b| ≤ (1 / 100 : ℚ)

instance (a b : ℚ) : Decidable (almostEqual a b) := by
  unfold almostEqual
  infer_instance

/-- Ascending comparator on `Int` (the sort of the modelled week keys). -/
def intLe (a b : Int) : Bool := a ≤ b

/-- Inner account loop of `assertBalanceRollForward` for one month.  (The
numeric interpolations of the source's error message are omitted from the
modelled message.)  -/
def abrAccounts (ym : String) :
    List (String × EndingBalanceCell) → BalMap → Except String BalMap
  | [], lastEnding => .ok lastEnding
  | (account, cell) :: rest, lastEnding =>
    match recordGet? lastEnding account with
    | some expectedBeginning =>
      if almostEqual cell.beginningBalance expectedBeginning then
        abrAccounts ym rest (recordSet lastEnding account cell.balance)
      else .error ("Monthly roll-forward violation for " ++ account ++ " in " ++ ym)
    | none => abrAccounts ym rest (recordSet lastEnding account cell.balance)

/-- Month loop of `assertBalanceRollForward`. -/
def abrMonths (endingBalances : MonthlyMap) :
    List String → BalMap → Except String Unit
  | [], _ => .ok ()
  | ym :: rest, lastEnding =>
    match abrAccounts ym ((recordGet? endingBalances ym).getD []) lastEnding with
    | .error e => .error e
    | .ok lastEnding' => abrMonths endingBalances rest lastEnding'

/-- `assertBalanceRollForward`. -/
def assertBalanceRollForward (endingBalances : MonthlyMap) : Except String Unit :=
  abrMonths endingBalances (sortLe jsStrLe (objKeys endingBalances)) []

/-- Inner account loop of the weekly-continuity walk of
`assertWeeklyBalanceRollForward`. -/
def awrAccounts (weekKey : Int) :
    List (String × WeeklyBalanceCell) → BalMap → Except String BalMap
  | [], lastEnding => .ok lastEnding
  | (account, cell) :: rest, lastEnding =>
    match recordGet? lastEnding account with
    | some expectedBeginning =>
      if almostEqual cell.beginningBalance expectedBeginning then
        awrAccounts weekKey rest (recordSet lastEnding account cell.balance)
      else .error ("Weekly roll-forward violation for " ++ account ++ " in week " ++
        toString weekKey)
    | none => awrAccounts weekKey rest (recordSet lastEnding account cell.balance)

/-- Week loop of the weekly-continuity walk. -/
def awrWeeks (weekMap : WeeklyMonthMap) :
    List Int → BalMap → Except String BalMap
  | [], lastEnding => .ok lastEnding
  | weekKey :: rest, lastEnding =>
    match awrAccounts weekKey ((recordGet? weekMap weekKey).getD []) lastEnding with
    | .error e => .error e
    | .ok lastEnding' => awrWeeks weekMap rest lastEnding'

/-- The weekly/monthly reconciliation loop for one month. -/
def awrRecon (ym : String) (weekMap : WeeklyMonthMap) (weekKeys : List Int) :
    List (String × EndingBalanceCell) → Except String Unit
  | [] => .ok ()
  | (account, monthCell) :: rest =>
    match weekKeys.getLast? with
    | none => awrRecon ym weekMap weekKeys rest
    | some lastWeekKey =>
      match (recordGet? weekMap lastWeekKey).bind (fun cells => recordGet? cells account) with
      | none => awrRecon ym weekMap weekKeys rest
      | some lastWeekCell =>
        if almostEqual lastWeekCell.balance monthCell.balance then
          awrRecon ym weekMap weekKeys rest
        else .error ("Weekly/monthly mismatch for " ++ account ++ " in " ++ ym)

/-- Month loop of `assertWeeklyBalanceRollForward`. -/
def awrMonths (weeklyBalances : WeeklyMap) (endingBalances : MonthlyMap) :
    List String → BalMap → Except String Unit
  | [], _ => .ok ()
  | ym :: rest, lastEnding =>
    let weekMap := (recordGet? weeklyBalances ym).getD []
    let weekKeys := sortLe intLe (objKeys weekMap)
    match awrWeeks weekMap weekKeys lastEnding with
    | .error e => .error e
    | .ok lastEnding' =>
      match awrRecon ym weekMap weekKeys ((recordGet? endingBalances ym).getD []) with
      | .error e => .error e
      | .ok _ => awrMonths weeklyBalances endingBalances rest lastEnding'

/-- `assertWeeklyBalanceRollForward`. -/
def assertWeeklyBalanceRollForward (weeklyBalances : WeeklyMap)
    (endingBalances : MonthlyMap) : Except String Unit :=
  awrMonths weeklyBalances endingBalances (sortLe jsStrLe (objKeys weeklyBalances)) []

/-! ## `buildForecast` (`forecast.ts` lines 418–435) -/
/-- The aggregate result of `buildForecast`. -/
structure ForecastResult where
  months : List String
  accounts : List String
  endingBalances : MonthlyMap
  weeklyBalances : WeeklyMap
deriving DecidableEq

/-- `buildForecast`: sort the months, compute both passes, run both
verifiers, return the aggregate result (or the first failure). -/
def buildForecast (months : List String) (occurrences : List Occurrence)
    (priorEndingBalances : BalMap) (checkpoints : List AnchorCheckpoint) :
    Except String ForecastResult :=
  let orderedMonths := sortLe jsStrLe months
  let accounts := listAccounts occurrences checkpoints priorEndingBalances
  match computeEndingBalances orderedMonths occurrences priorEndingBalances checkpoints with
  | .error e => .error e
  | .ok endingBalances =>
    match assertBalanceRollForward endingBalances with
    | .error e => .error e
    | .ok _ =>
      match computeWeeklyBalances orderedMonths occurrences priorEndingBalances checkpoints with
      | .error e => .error e
      | .ok weeklyBalances =>
        match assertWeeklyBalanceRollForward weeklyBalances endingBalances with
        | .error e => .error e
        | .ok _ =>
          .ok { months := orderedMonths, accounts := accounts,
                endingBalances := endingBalances, weeklyBalances := weeklyBalances }

/-! ## The effective checkpoint of a window

`effCp` computes, by structural recursion, the element the source picks as
`accountCheckpoints[accountCheckpoints.length - 1]` after the stable
ascending sort: the checkpoint with the greatest timestamp, the
last-supplied one among equal timestamps. -/
/-- Last maximal-timestamp element of a checkpoint list. -/
def effCp : List AnchorCheckpoint → Option AnchorCheckpoint
  | [] => none
  | x :: xs =>
    match effCp xs with
    | none => some x
    | some y => if y.timestamp < x.timestamp then some x else some y

/-! ## The month loop as a trace of passes

`ebTrace` lists, in processing order, the `(month, cells)` pass results the
loop produces — one entry per element of the sorted month list, duplicate
identifiers included.  `computeEndingBalances` is the fold of that trace
into the result record: a later pass of a repeated identifier overwrites
its earlier pass in place. -/
/-- The processing trace of `computeEndingBalances`'s month loop. -/
def ebTrace (occurrences : List Occurrence) (checkpoints : List AnchorCheckpoint)
    (accounts : List String) :
    List String → BalMap → List (String × List (String × EndingBalanceCell))
  | [], _ => []
  | ym :: rest, bal =>
    match parseYM ym with
    | none => []
    | some (y, m) =>
      let out := processMonthAccounts occurrences checkpoints ym
        (dateUtcMs y (m - 1)) (dateUtcMs y m) accounts bal []
      (ym, out.1) :: ebTrace occurrences checkpoints accounts rest out.2

/-! ## The weekly month loop as a trace, and reconciliation with the
monthly loop -/
/-- The processing trace of `computeWeeklyBalances`'s month loop. -/
def wbTrace (occurrences : List Occurrence) (checkpoints : List AnchorCheckpoint)
    (accounts : List String) :
    List String → BalMap → List (String × WeeklyMonthMap)
  | [], _ => []
  | ym :: rest, bal =>
    match parseYM ym with
    | none => []
    | some (y, m) =>
      let monthStart := dateUtcMs y (m - 1)
      let monthEnd := dateUtcMs y m
      let weeks := weeksGo monthEnd (((monthEnd - monthStart) / dayMs).toNat + 2) monthStart
      let out := processWeeks occurrences checkpoints ym accounts weeks bal []
      (ym, out.1) :: wbTrace occurrences checkpoints accounts rest out.2

/-- The pointwise relation between a monthly pass and the weekly pass of
the same month: same month key, and each account's monthly ending balance
equals its balance in the chronologically last weekly cell. -/
def reconRel (eM : String × List (String × EndingBalanceCell))
    (eW : String × WeeklyMonthMap) : Prop :=
  eM.1 = eW.1 ∧ ∀ (a : String) (cM : EndingBalanceCell),
    recordGet? eM.2 a = some cM →
    ∃ (k : Int) (wcells : List (String × WeeklyBalanceCell)) (cW : WeeklyBalanceCell),
      eW.2.getLast? = some (k, wcells) ∧ recordGet? wcells a = some cW ∧
      cW.balance = cM.balance

/-! ## The spec's literal end-to-end scenario -/
/-- The scenario's occurrences: +450 Jan 3, −180 Jan 7, −220 Jan 20,
+375 Feb 4, −120 Feb 12, −315 Feb 21 (all midnight UTC). -/
def sampleOccs : List Occurrence :=
  [⟨"operating", 450, 1735862400000⟩, ⟨"operating", -180, 1736208000000⟩,
   ⟨"operating", -220, 1737331200000⟩, ⟨"operating", 375, 1738627200000⟩,
   ⟨"operating", -120, 1739318400000⟩, ⟨"operating", -315, 1740096000000⟩]

/-- The scenario's checkpoint: balance 1480 at 2025-01-17T14:00Z. -/
def sampleCps : List AnchorCheckpoint := [⟨"cp-1", "operating", 1480, 1737122400000⟩]

def samplePrior : BalMap := [("operating", 1250)]

def sampleMonths : List String := ["2025-01", "2025-02"]

/-- The January monthly cell the computation produces. -/
def janCellC1 : EndingBalanceCell := mkMonthCell "2025-01" "operating"
  ⟨⟨1480, 1737122400000, .checkpoint, some "cp-1", true⟩, -220, 1260⟩

/-- The February monthly cell the computation produces. -/
def febCellC1 : EndingBalanceCell := mkMonthCell "2025-02" "operating"
  ⟨⟨1260, 1738368000000, .rollforward, none, false⟩, -60, 1200⟩

def monthlyC1 : MonthlyMap :=
  [("2025-01", [("operating", janCellC1)]), ("2025-02", [("operating", febCellC1)])]

def wCellC1 (ym : String) (wk : Int) (anchor : AnchorMetadata) (net ending : ℚ) :
    WeeklyBalanceCell :=
  mkWeekCell ym "operating" wk ⟨anchor, net, ending⟩

/-- The weekly windows of 2025-01. -/
def janWeeks : List WeekWindow :=
  [⟨1735689600000, 1736121600000, 20093⟩, ⟨1736121600000, 1736726400000, 20100⟩,
   ⟨1736726400000, 1737331200000, 20107⟩, ⟨1737331200000, 1737936000000, 20114⟩,
   ⟨1737936000000, 1738368000000, 20119⟩]

/-- The weekly windows of 2025-02. -/
def febWeeksC1 : List WeekWindow :=
  [⟨1738368000000, 1738540800000, 20121⟩, ⟨1738540800000, 1739145600000, 20128⟩,
   ⟨1739145600000, 1739750400000, 20135⟩, ⟨1739750400000, 1740355200000, 20142⟩,
   ⟨1740355200000, 1740787200000, 20147⟩]

def janWeekMapC1 : WeeklyMonthMap :=
  [(20093, [("operating", wCellC1 "2025-01" 20093 ⟨1250, 1735689600000, .rollforward, none, false⟩ 450 1700)]),
   (20100, [("operating", wCellC1 "2025-01" 20100 ⟨1700, 1736121600000, .rollforward, none, false⟩ (-180) 1520)]),
   (20107, [("operating", wCellC1 "2025-01" 20107 ⟨1480, 1737122400000, .checkpoint, some "cp-1", true⟩ 0 1480)]),
   (20114, [("operating", wCellC1 "2025-01" 20114 ⟨1480, 1737331200000, .rollforward, none, false⟩ (-220) 1260)]),
   (20119, [("operating", wCellC1 "2025-01" 20119 ⟨1260, 1737936000000, .rollforward, none, false⟩ 0 1260)])]

def febWeekMapC1 : WeeklyMonthMap :=
  [(20121, [("operating", wCellC1 "2025-02" 20121 ⟨1260, 1738368000000, .rollforward, none, false⟩ 0 1260)]),
   (20128, [("operating", wCellC1 "2025-02" 20128 ⟨1260, 1738540800000, .rollforward, none, false⟩ 375 1635)]),
   (20135, [("operating", wCellC1 "2025-02" 20135 ⟨1635, 1739145600000, .rollforward, none, false⟩ (-120) 1515)]),
   (20142, [("operating", wCellC1 "2025-02" 20142 ⟨1515, 1739750400000, .rollforward, none, false⟩ (-315) 1200)]),
   (20147, [("operating", wCellC1 "2025-02" 20147 ⟨1200, 1740355200000, .rollforward, none, false⟩ 0 1200)])]

def weeklyC1 : WeeklyMap :=
  [("2025-01", janWeekMapC1), ("2025-02", febWeekMapC1)]

/-! ## A self-consistent input on which the monthly verifier fires -/
/-- A checkpoint for account `a` of 100 at 2025-02-10T00:00Z. -/
def c2Cps : List AnchorCheckpoint := [⟨"c1", "a", 100, 1739145600000⟩]

def janC2 : EndingBalanceCell := mkMonthCell "2025-01" "a"
  ⟨⟨0, 1735689600000, .rollforward, none, false⟩, 0, 0⟩

def febC2 : EndingBalanceCell := mkMonthCell "2025-02" "a"
  ⟨⟨100, 1739145600000, .checkpoint, some "c1", true⟩, 0, 100⟩

def monthlyC2 : MonthlyMap := [("2025-01", [("a", janC2)]), ("2025-02", [("a", febC2)])]

/-! ## A small concrete run of both passes (one month, one account) -/
def ebC3w : EndingBalanceCell := mkMonthCell "2025-01" "a"
  ⟨⟨5, 1735689600000, .rollforward, none, false⟩, 0, 5⟩

def wkCellC3 (wk ws : Int) : WeeklyBalanceCell :=
  mkWeekCell "2025-01" "a" wk ⟨⟨5, ws, .rollforward, none, false⟩, 0, 5⟩

def wkC3w : WeeklyMonthMap :=
  [(20093, [("a", wkCellC3 20093 1735689600000)]),
   (20100, [("a", wkCellC3 20100 1736121600000)]),
   (20107, [("a", wkCellC3 20107 1736726400000)]),
   (20114, [("a", wkCellC3 20114 1737331200000)]),
   (20119, [("a", wkCellC3 20119 1737936000000)])]

/-! ## Concrete runs with a duplicated month and with an uninitialized
account -/
def ebC9 : EndingBalanceCell := mkMonthCell "2025-01" "a"
  ⟨⟨7, 1735689600000, .rollforward, none, false⟩, 0, 7⟩

def occC10 : List Occurrence := [⟨"a", 1, 1735862400000⟩]

def ebC10 : EndingBalanceCell := mkMonthCell "2025-01" "a"
  ⟨⟨0, 1735689600000, .initial, none, false⟩, 1, 1⟩

theorem recordGet?_recordSet_self {κ α : Type} [DecidableEq κ]
    (m : List (κ × α)) (k : κ) (v : α) :
    recordGet? (recordSet m k v) k = some v := by
  induction m with
  | nil => simp [recordGet?, recordSet]
  | cons hd tl ih =>
    obtain ⟨k', v'⟩ := hd
    by_cases h : k' = k <;> simp [recordGet?, recordSet, h, ih]

theorem recordGet?_recordSet_other {κ α : Type} [DecidableEq κ]
    (m : List (κ × α)) (k k' : κ)
    (v : α) (h : k ≠ k') : recordGet? (recordSet m k v) k' = recordGet? m k' := by
  induction m with
  | nil => simp [recordGet?, recordSet, h]
  | cons hd tl ih =>
    obtain ⟨k0, v0⟩ := hd
    by_cases h0 : k0 = k
    · subst h0
      simp [recordGet?, recordSet, h]
    · by_cases h1 : k0 = k' <;> simp [recordGet?, recordSet, h0, h1, ih, Ne.symm h]

theorem insertLe_ne_nil {α : Type} (le : α → α → Bool) (x : α) (l : List α) :
    insertLe le x l ≠ [] := by
  cases l with
  | nil => simp [insertLe]
  | cons y ys =>
    by_cases h : le x y = true <;> simp [insertLe, h]

theorem perm_insertLe {α : Type} (le : α → α → Bool) (x : α) (l : List α) :
    List.Perm (insertLe le x l) (x :: l) := by
  induction l with
  | nil => simp [insertLe]
  | cons y ys ih =>
    by_cases h : le x y = true
    · simp [insertLe, h]
    · simp only [insertLe, h, if_false]
      exact List.Perm.trans (List.Perm.cons y ih) (List.Perm.swap x y ys)

theorem perm_sortLe {α : Type} (le : α → α → Bool) (l : List α) :
    List.Perm (sortLe le l) l := by
  induction l with
  | nil => simp [sortLe]
  | cons x xs ih =>
    exact List.Perm.trans (perm_insertLe le x (sortLe le xs)) (List.Perm.cons x ih)

theorem mem_sortLe {α : Type} (le : α → α → Bool) (l : List α) (a : α) :
    a ∈ sortLe le l ↔ a ∈ l :=
  (perm_sortLe le l).mem_iff

theorem nodup_sortLe {α : Type} (le : α → α → Bool) (l : List α) (h : l.Nodup) :
    (sortLe le l).Nodup :=
  ((perm_sortLe le l).nodup_iff).mpr h

/-! ## Basic lemmas on the fold, the filters and the stable sort -/
theorem computeCell_anchor (occurrences : List Occurrence)
    (checkpoints : List AnchorCheckpoint) (prior : Option ℚ) (account : String)
    (wStart wEnd : Int) :
    (computeCell occurrences checkpoints prior account wStart wEnd).anchor =
      resolveAnchor checkpoints prior account wStart wEnd := rfl

theorem computeCell_net (occurrences : List Occurrence)
    (checkpoints : List AnchorCheckpoint) (prior : Option ℚ) (account : String)
    (wStart wEnd : Int) :
    (computeCell occurrences checkpoints prior account wStart wEnd).netAfterAnchor =
      netAfter occurrences (resolveAnchor checkpoints prior account wStart wEnd)
        account wStart wEnd := rfl

theorem computeCell_ending (occurrences : List Occurrence)
    (checkpoints : List AnchorCheckpoint) (prior : Option ℚ) (account : String)
    (wStart wEnd : Int) :
    (computeCell occurrences checkpoints prior account wStart wEnd).endingBalance =
      (resolveAnchor checkpoints prior account wStart wEnd).balance +
        netAfter occurrences (resolveAnchor checkpoints prior account wStart wEnd)
          account wStart wEnd := rfl

theorem foldl_add_amount (l : List Occurrence) (init : ℚ) :
    l.foldl (fun sum occ => sum + occ.amount) init = init + (l.map (·.amount)).sum := by
  induction l generalizing init with
  | nil => simp
  | cons x xs ih =>
    simp only [List.foldl_cons, List.map_cons, List.sum_cons, ih (init + x.amount)]
    ring

theorem netAfter_eq_sum (occurrences : List Occurrence) (anchor : AnchorMetadata)
    (account : String) (wStart wEnd : Int) :
    netAfter occurrences anchor account wStart wEnd =
      (((filterOccurrencesForWindow occurrences account wStart wEnd).filter
        (keepAfterAnchor anchor)).map (·.amount)).sum := by
  simp [netAfter, foldl_add_amount]

/-- Splitting a filtered sum along a disjoint decomposition of the filter. -/
theorem sum_map_filter_split {α : Type} (l : List α) (f : α → ℚ) (p q r : α → Bool)
    (hsplit : ∀ x ∈ l, p x = (q x || r x)) (hdisj : ∀ x ∈ l, ¬(q x = true ∧ r x = true)) :
    ((l.filter p).map f).sum = ((l.filter q).map f).sum + ((l.filter r).map f).sum := by
  induction l with
  | nil => simp
  | cons x xs ih =>
    have hs := hsplit x (by simp)
    have hd := hdisj x (by simp)
    have ihs : ∀ y ∈ xs, p y = (q y || r y) := fun y hy => hsplit y (by simp [hy])
    have ihd : ∀ y ∈ xs, ¬(q y = true ∧ r y = true) := fun y hy => hdisj y (by simp [hy])
    cases hq : q x <;> cases hr : r x <;>
      simp_all [List.filter_cons, hs, hq, hr, List.sum_cons] <;> ring

theorem effCp_eq_none_iff (l : List AnchorCheckpoint) : effCp l = none ↔ l = [] := by
  cases l with
  | nil => simp [effCp]
  | cons x xs =>
    simp only [effCp]
    cases h : effCp xs with
    | none => simp
    | some y =>
      by_cases ht : y.timestamp < x.timestamp <;> simp [ht]

theorem effCp_mem (l : List AnchorCheckpoint) (c : AnchorCheckpoint)
    (h : effCp l = some c) : c ∈ l := by
  induction l with
  | nil => simp [effCp] at h
  | cons x xs ih =>
    simp only [effCp] at h
    cases heq : effCp xs with
    | none =>
      rw [heq] at h
      simp at h
      simp [h]
    | some y =>
      rw [heq] at h
      by_cases ht : y.timestamp < x.timestamp
      · simp [ht] at h
        simp [h]
      · simp [ht] at h
        exact List.mem_cons_of_mem x (ih (h ▸ heq))

theorem effCp_ts_ge (l : List AnchorCheckpoint) (c : AnchorCheckpoint)
    (h : effCp l = some c) : ∀ d ∈ l, d.timestamp ≤ c.timestamp := by
  induction l generalizing c with
  | nil => simp [effCp] at h
  | cons x xs ih =>
    intro d hd
    simp only [effCp] at h
    cases heq : effCp xs with
    | none =>
      rw [heq] at h
      simp at h
      have hxs : xs = [] := (effCp_eq_none_iff xs).mp heq
      subst hxs
      simp at hd
      simp [hd, h]
    | some y =>
      rw [heq] at h
      by_cases ht : y.timestamp < x.timestamp
      · simp [ht] at h
        subst h
        rcases List.mem_cons.mp hd with hdx | hdxs
        · simp [hdx]
        · have := ih y heq d hdxs
          omega
      · simp [ht] at h
        subst h
        rcases List.mem_cons.mp hd with hdx | hdxs
        · subst hdx
          omega
        · exact ih y heq d hdxs

/-- The decomposition of a list around its effective checkpoint: everything
has a timestamp `≤` its, everything after it a strictly smaller one (it is
the latest checkpoint, the last-supplied among equal timestamps). -/
theorem effCp_split (l : List AnchorCheckpoint) (c : AnchorCheckpoint)
    (h : effCp l = some c) :
    ∃ l1 l2, l = l1 ++ c :: l2 ∧ (∀ d ∈ l, d.timestamp ≤ c.timestamp) ∧
      ∀ d ∈ l2, d.timestamp < c.timestamp := by
  induction l with
  | nil => simp [effCp] at h
  | cons x xs ih =>
    simp only [effCp] at h
    cases heq : effCp xs with
    | none =>
      rw [heq] at h
      simp at h
      have hxs : xs = [] := (effCp_eq_none_iff xs).mp heq
      subst hxs
      subst h
      exact ⟨[], [], by simp, by simp, by simp⟩
    | some y =>
      rw [heq] at h
      by_cases ht : y.timestamp < x.timestamp
      · simp [ht] at h
        subst h
        refine ⟨[], xs, by simp, ?_, ?_⟩
        · intro d hd
          rcases List.mem_cons.mp hd with hdx | hdxs
          · simp [hdx]
          · have := effCp_ts_ge xs y heq d hdxs
            omega
        · intro d hdxs
          have := effCp_ts_ge xs y heq d hdxs
          omega
      · simp [ht] at h
        subst h
        obtain ⟨l1, l2, hsplit, hle, hlt⟩ := ih heq
        refine ⟨x :: l1, l2, by simp [hsplit], ?_, hlt⟩
        intro d hd
        rcases List.mem_cons.mp hd with hdx | hdxs
        · subst hdx
          omega
        · exact hle d hdxs

theorem getLast?_insertLe {α : Type} (le : α → α → Bool) (x : α) (l : List α) :
    (insertLe le x l).getLast? =
      if l.all (fun y => !(le x y)) then some x else l.getLast? := by
  induction l with
  | nil => simp [insertLe]
  | cons y ys ih =>
    by_cases h : le x y = true
    · simp [insertLe, h]
    · have hb : le x y = false := by simpa using h
      obtain ⟨z, zs, hz⟩ := List.exists_cons_of_ne_nil (insertLe_ne_nil le x ys)
      simp only [insertLe, hb, Bool.false_eq_true, if_false]
      rw [hz, List.getLast?_cons_cons, ← hz, ih]
      simp only [List.all_cons, hb, Bool.not_false, Bool.true_and]
      by_cases ha : ys.all (fun w => !(le x w)) = true
      · simp [ha]
      · simp only [ha, if_false]
        cases ys with
        | nil => simp at ha
        | cons w ws => rw [List.getLast?_cons_cons]

theorem getLast?_sortIsoStrings (l : List AnchorCheckpoint) :
    (sortIsoStrings l).getLast? = effCp l := by
  induction l with
  | nil => simp [sortIsoStrings, sortLe, effCp]
  | cons x xs ih =>
    show (insertLe cpLeTs x (sortLe cpLeTs xs)).getLast? = _
    rw [getLast?_insertLe]
    have hmem : ∀ y, y ∈ sortLe cpLeTs xs ↔ y ∈ xs := fun y => mem_sortLe cpLeTs xs y
    cases heq : effCp xs with
    | none =>
      have hxs : xs = [] := (effCp_eq_none_iff xs).mp heq
      subst hxs
      simp [sortLe, effCp]
    | some y =>
      simp only [effCp, heq]
      by_cases ht : y.timestamp < x.timestamp
      · have hall : (sortLe cpLeTs xs).all (fun z => !(cpLeTs x z)) = true := by
          rw [List.all_eq_true]
          intro z hz
          have hzx := effCp_ts_ge xs y heq z ((hmem z).mp hz)
          simp [cpLeTs]
          omega
        simp [hall, ht]
      · have hnall : ((sortLe cpLeTs xs).all fun z => !(cpLeTs x z)) = false := by
          rw [Bool.eq_false_iff]
          rw [Ne, List.all_eq_true]
          intro hcon
          have hy : y ∈ sortLe cpLeTs xs := (hmem y).mpr (effCp_mem xs y heq)
          have := hcon y hy
          simp [cpLeTs] at this
          omega
        rw [hnall]
        simp only [Bool.false_eq_true, if_false]
        rw [if_neg ht]
        show (sortIsoStrings xs).getLast? = some y
        rw [ih, heq]

/-! ## Calendar arithmetic: a month window is non-empty and day-aligned -/
theorem dayFromYear_succ_ge (y : Int) : dayFromYear y + 365 ≤ dayFromYear (y + 1) := by
  unfold dayFromYear
  omega

theorem monthOffset_lt (leap : Bool) (r : Int) (h0 : 0 ≤ r) (h1 : r ≤ 10) :
    monthOffset leap r < monthOffset leap (r + 1) := by
  unfold monthOffset
  cases leap <;> interval_cases r <;> norm_num

theorem makeDay_lt_succ (y m : Int) : makeDay y m < makeDay y (m + 1) := by
  simp only [makeDay]
  rcases (by omega : m % 12 = 11 ∨ (0 ≤ m % 12 ∧ m % 12 ≤ 10)) with hr | hr
  · have hq : (m + 1) / 12 = m / 12 + 1 := by omega
    have hr' : (m + 1) % 12 = 0 := by omega
    rw [hq, hr, hr']
    have hy : y + (m / 12 + 1) = (y + m / 12) + 1 := by ring
    rw [hy]
    have h365 := dayFromYear_succ_ge (y + m / 12)
    have hoff : monthOffset (isLeapYear (y + m / 12)) 11 ≤ 335 := by
      unfold monthOffset
      cases isLeapYear (y + m / 12) <;> norm_num
    have hoff0 : 0 ≤ monthOffset (isLeapYear (y + m / 12 + 1)) 0 := by
      unfold monthOffset
      cases isLeapYear (y + m / 12 + 1) <;> norm_num
    omega
  · have hq : (m + 1) / 12 = m / 12 := by omega
    have hr' : (m + 1) % 12 = m % 12 + 1 := by omega
    rw [hq, hr']
    have := monthOffset_lt (isLeapYear (y + m / 12)) (m % 12) hr.1 hr.2
    omega

theorem dateUtcMs_lt_succ (y m0 : Int) : dateUtcMs y m0 < dateUtcMs y (m0 + 1) := by
  simp only [dateUtcMs]
  have h := makeDay_lt_succ (if 0 ≤ y ∧ y ≤ 99 then 1900 + y else y) m0
  have hday : (0 : Int) < dayMs := by norm_num [dayMs]
  exact (mul_lt_mul_right hday).mpr h

theorem dayMs_dvd_dateUtcMs (y m0 : Int) : dayMs ∣ dateUtcMs y m0 := by
  simp only [dateUtcMs]
  exact dvd_mul_left dayMs _

theorem parseYM_pos (ym : String) (y m : Int) (h : parseYM ym = some (y, m)) :
    1 ≤ y ∧ 1 ≤ m := by
  simp only [parseYM] at h
  split at h
  · split at h
    · simp at h
    · next hz =>
      simp only [Option.some.injEq, Prod.mk.injEq] at h
      obtain ⟨hy, hm⟩ := h
      subst hy
      subst hm
      push_neg at hz
      omega
  · simp at h

theorem monthStart_lt_monthEnd (y m : Int) :
    dateUtcMs y (m - 1) < dateUtcMs y m := by
  have h := dateUtcMs_lt_succ y (m - 1)
  have : m - 1 + 1 = m := by ring
  rwa [this] at h

/-! ## The weekly partition: `weeksGo` walks the month exactly -/
theorem nextWeekEnd_bounds (cursor : Int) :
    cursor + dayMs ≤ nextWeekEnd cursor ∧ nextWeekEnd cursor ≤ cursor + 7 * dayMs := by
  simp only [nextWeekEnd, dayMs]
  split_ifs <;> omega

theorem dayMs_dvd_nextWeekEnd (cursor : Int) (h : dayMs ∣ cursor) :
    dayMs ∣ nextWeekEnd cursor := by
  simp only [nextWeekEnd, dayMs] at h ⊢
  split_ifs <;> omega

theorem weeksGo_nil (monthEnd : Int) (fuel : Nat) (cursor : Int)
    (h : ¬ cursor < monthEnd) : weeksGo monthEnd fuel cursor = [] := by
  cases fuel with
  | zero => rfl
  | succ n => simp [weeksGo, h]

/-- Everything the `computeWeeksInMonth` loop guarantees about the windows
it produces, provided the fuel covers the remaining walk: the windows are
non-empty, start at the cursor, chain contiguously, end exactly at
`monthEnd`, each is a non-empty day-aligned sub-window, and the week keys
strictly increase. -/
theorem weeksGo_spec (monthEnd : Int) (fuel : Nat) : ∀ cursor : Int,
    monthEnd - cursor ≤ (fuel : Int) * dayMs → cursor < monthEnd →
    dayMs ∣ cursor → dayMs ∣ monthEnd →
    ∃ (w : WeekWindow) (ws : List WeekWindow),
      weeksGo monthEnd fuel cursor = w :: ws ∧
      w.wStart = cursor ∧
      List.Chain' (fun w1 w2 => w1.wEnd = w2.wStart) (w :: ws) ∧
      ((w :: ws).getLast (by simp)).wEnd = monthEnd ∧
      (∀ u ∈ w :: ws, u.wStart < u.wEnd ∧ u.wEnd ≤ monthEnd ∧
        dayMs ∣ u.wStart ∧ dayMs ∣ u.wEnd ∧ u.weekKey = u.wEnd / dayMs - 1) ∧
      List.Chain' (fun w1 w2 => w1.weekKey < w2.weekKey) (w :: ws) := by
  induction fuel with
  | zero =>
    intro cursor hfuel hlt _ _
    exfalso
    simp only [Nat.cast_zero, zero_mul, dayMs] at hfuel
    omega
  | succ n ih =>
    intro cursor hfuel hlt hdc hdm
    have hnwe := nextWeekEnd_bounds cursor
    have hdnwe := dayMs_dvd_nextWeekEnd cursor hdc
    set E := min (nextWeekEnd cursor + dayMs) monthEnd with hE
    have hgo : weeksGo monthEnd (n + 1) cursor =
        { wStart := cursor, wEnd := E, weekKey := (E - dayMs) / dayMs }
          :: weeksGo monthEnd n E := by
      simp only [weeksGo, if_pos hlt]
    have hday : (0 : Int) < dayMs := by norm_num [dayMs]
    have hEc : cursor < E := by
      have h1 : cursor < nextWeekEnd cursor + dayMs := by omega
      omega
    have hEm : E ≤ monthEnd := min_le_right _ _
    have hdE : dayMs ∣ E := by
      rcases min_choice (nextWeekEnd cursor + dayMs) monthEnd with hmin | hmin <;>
        rw [← hE] at hmin <;> rw [hmin]
      · exact dvd_add hdnwe dvd_rfl
      · exact hdm
    have hkey : (E - dayMs) / dayMs = E / dayMs - 1 := by
      obtain ⟨p, hp⟩ := hdE
      simp only [hp, dayMs]
      omega
    by_cases hEnd : E = monthEnd
    · rw [hgo, weeksGo_nil monthEnd n E (by rw [hEnd]; exact lt_irrefl monthEnd)]
      refine ⟨_, [], rfl, rfl, ?_, ?_, ?_, ?_⟩
      · simp
      · simpa using hEnd
      · intro u hu
        simp only [List.mem_singleton] at hu
        subst hu
        exact ⟨hEc, hEm, hdc, hdE, hkey⟩
      · simp
    · have hElt : E < monthEnd := lt_of_le_of_ne hEm hEnd
      have hEeq : E = nextWeekEnd cursor + dayMs := by
        rcases min_choice (nextWeekEnd cursor + dayMs) monthEnd with hmin | hmin <;>
          rw [← hE] at hmin
        · exact hmin
        · exact absurd hmin hEnd
      have hfuel2 : monthEnd - E ≤ (n : Int) * dayMs := by
        have h2 : cursor + 2 * dayMs ≤ E := by
          rw [hEeq]
          have h3 := hnwe.1
          simp only [dayMs] at h3 ⊢
          omega
        have hexp : ((n : Int) + 1) * dayMs = (n : Int) * dayMs + dayMs := by ring
        push_cast at hfuel
        rw [hexp] at hfuel
        simp only [dayMs] at h2 hfuel ⊢
        omega
      obtain ⟨w2, ws2, hgo2, hst2, hchain2, hlast2, hprops2, hkeys2⟩ :=
        ih E hfuel2 hElt hdE hdm
      refine ⟨_, w2 :: ws2, by rw [hgo, hgo2], rfl, ?_, ?_, ?_, ?_⟩
      · rw [List.chain'_cons]
        exact ⟨hst2.symm, hchain2⟩
      · rw [List.getLast_cons (by simp)]
        exact hlast2
      · intro u hu
        rcases List.mem_cons.mp hu with hu | hu
        · subst hu
          exact ⟨hEc, hEm, hdc, hdE, hkey⟩
        · exact hprops2 u hu
      · rw [List.chain'_cons]
        refine ⟨?_, hkeys2⟩
        have hw2 := hprops2 w2 (by simp)
        have hd1 : dayMs ∣ w2.wEnd := hw2.2.2.2.1
        have hgt : E < w2.wEnd := by
          rw [← hst2]
          exact hw2.1
        obtain ⟨p, hp⟩ := hdE
        obtain ⟨q, hq⟩ := hd1
        simp only [hkey, hw2.2.2.2.2, hp, hq, dayMs] at hgt ⊢
        omega

/-- `computeWeeksInMonth` on a month identifier that parses: the weekly
windows are produced and partition the monthly window. -/
theorem computeWeeksInMonth_spec (ym : String) (y m : Int)
    (h : parseYM ym = some (y, m)) :
    ∃ (w : WeekWindow) (ws : List WeekWindow),
      computeWeeksInMonth ym = .ok (w :: ws) ∧
      w.wStart = dateUtcMs y (m - 1) ∧
      List.Chain' (fun w1 w2 => w1.wEnd = w2.wStart) (w :: ws) ∧
      ((w :: ws).getLast (by simp)).wEnd = dateUtcMs y m ∧
      (∀ u ∈ w :: ws, u.wStart < u.wEnd ∧ u.wEnd ≤ dateUtcMs y m ∧
        dayMs ∣ u.wStart ∧ dayMs ∣ u.wEnd ∧ u.weekKey = u.wEnd / dayMs - 1) ∧
      List.Chain' (fun w1 w2 => w1.weekKey < w2.weekKey) (w :: ws) := by
  have hlt := monthStart_lt_monthEnd y m
  have hfuel : dateUtcMs y m - dateUtcMs y (m - 1) ≤
      ((((dateUtcMs y m - dateUtcMs y (m - 1)) / dayMs).toNat + 2 : Nat) : Int) * dayMs := by
    push_cast
    simp only [dayMs]
    omega
  obtain ⟨w, ws, hgo, hrest⟩ := weeksGo_spec (dateUtcMs y m)
    (((dateUtcMs y m - dateUtcMs y (m - 1)) / dayMs).toNat + 2) (dateUtcMs y (m - 1))
    hfuel hlt (dayMs_dvd_dateUtcMs y (m - 1)) (dayMs_dvd_dateUtcMs y m)
  refine ⟨w, ws, ?_, hrest.1, hrest.2.1, hrest.2.2.1, hrest.2.2.2.1, hrest.2.2.2.2⟩
  simp only [computeWeeksInMonth, h]
  rw [hgo]

/-! ## The inner account loop: per-account projection

Each account's computation reads and writes only its own key of the
running-balance state, so the loop is characterized pointwise. -/
theorem recordGet?_isSome_recordSet {κ α : Type} [DecidableEq κ]
    (m : List (κ × α)) (k k' : κ) (v : α) (h : (recordGet? m k').isSome) :
    (recordGet? (recordSet m k v) k').isSome := by
  by_cases hk : k = k'
  · subst hk
    simp [recordGet?_recordSet_self]
  · rwa [recordGet?_recordSet_other m k k' v hk]

theorem processMonthAccounts_frame (occurrences : List Occurrence)
    (checkpoints : List AnchorCheckpoint) (ym : String) (wStart wEnd : Int)
    (accounts : List String) (a : String) (ha : a ∉ accounts) :
    ∀ (bal : BalMap) (cells : List (String × EndingBalanceCell)),
    recordGet? (processMonthAccounts occurrences checkpoints ym wStart wEnd
        accounts bal cells).1 a = recordGet? cells a ∧
    recordGet? (processMonthAccounts occurrences checkpoints ym wStart wEnd
        accounts bal cells).2 a = recordGet? bal a := by
  induction accounts with
  | nil => intro bal cells; exact ⟨rfl, rfl⟩
  | cons b rest ih =>
    intro bal cells
    have hab : a ≠ b := fun hcon => ha (hcon ▸ List.mem_cons_self b rest)
    have hrest : a ∉ rest := fun hcon => ha (List.mem_cons_of_mem b hcon)
    simp only [processMonthAccounts]
    rw [(ih hrest _ _).1, (ih hrest _ _).2,
      recordGet?_recordSet_other _ b a _ (Ne.symm hab),
      recordGet?_recordSet_other _ b a _ (Ne.symm hab)]
    exact ⟨rfl, rfl⟩

theorem processMonthAccounts_lookup (occurrences : List Occurrence)
    (checkpoints : List AnchorCheckpoint) (ym : String) (wStart wEnd : Int)
    (accounts : List String) (hnd : accounts.Nodup) (a : String) (ha : a ∈ accounts) :
    ∀ (bal : BalMap) (cells : List (String × EndingBalanceCell)),
    recordGet? (processMonthAccounts occurrences checkpoints ym wStart wEnd
        accounts bal cells).1 a =
      some (mkMonthCell ym a
        (computeCell occurrences checkpoints (recordGet? bal a) a wStart wEnd)) ∧
    recordGet? (processMonthAccounts occurrences checkpoints ym wStart wEnd
        accounts bal cells).2 a =
      some (computeCell occurrences checkpoints (recordGet? bal a) a
        wStart wEnd).endingBalance := by
  induction accounts with
  | nil => cases ha
  | cons b rest ih =>
    intro bal cells
    rcases List.mem_cons.mp ha with hab | harest
    · subst hab
      have hnotin : a ∉ rest := (List.nodup_cons.mp hnd).1
      simp only [processMonthAccounts]
      have hframe := processMonthAccounts_frame occurrences checkpoints ym wStart wEnd
        rest a hnotin (recordSet bal a (computeCell occurrences checkpoints
          (recordGet? bal a) a wStart wEnd).endingBalance)
        (recordSet cells a (mkMonthCell ym a (computeCell occurrences checkpoints
          (recordGet? bal a) a wStart wEnd)))
      rw [hframe.1, hframe.2, recordGet?_recordSet_self, recordGet?_recordSet_self]
      exact ⟨rfl, rfl⟩
    · have hab : b ≠ a := by
        intro hcon
        subst hcon
        exact (List.nodup_cons.mp hnd).1 harest
      simp only [processMonthAccounts]
      have ih2 := ih (List.nodup_cons.mp hnd).2 harest
        (recordSet bal b (computeCell occurrences checkpoints
          (recordGet? bal b) b wStart wEnd).endingBalance)
        (recordSet cells b (mkMonthCell ym b (computeCell occurrences checkpoints
          (recordGet? bal b) b wStart wEnd)))
      rwa [recordGet?_recordSet_other _ b a _ hab] at ih2

theorem processMonthAccounts_keeps_isSome (occurrences : List Occurrence)
    (checkpoints : List AnchorCheckpoint) (ym : String) (wStart wEnd : Int)
    (accounts : List String) (a : String) :
    ∀ (bal : BalMap) (cells : List (String × EndingBalanceCell)),
    (recordGet? bal a).isSome →
    (recordGet? (processMonthAccounts occurrences checkpoints ym wStart wEnd
        accounts bal cells).2 a).isSome := by
  induction accounts with
  | nil => intro bal cells h; exact h
  | cons b rest ih =>
    intro bal cells h
    simp only [processMonthAccounts]
    exact ih _ _ (recordGet?_isSome_recordSet _ b a _ h)

theorem processMonthAccounts_covers (occurrences : List Occurrence)
    (checkpoints : List AnchorCheckpoint) (ym : String) (wStart wEnd : Int)
    (accounts : List String) (a : String) (ha : a ∈ accounts) :
    ∀ (bal : BalMap) (cells : List (String × EndingBalanceCell)),
    (recordGet? (processMonthAccounts occurrences checkpoints ym wStart wEnd
        accounts bal cells).2 a).isSome := by
  induction accounts with
  | nil => cases ha
  | cons b rest ih =>
    intro bal cells
    rcases List.mem_cons.mp ha with hab | harest
    · subst hab
      simp only [processMonthAccounts]
      exact processMonthAccounts_keeps_isSome occurrences checkpoints ym wStart wEnd
        rest a _ _ (by simp [recordGet?_recordSet_self])
    · simp only [processMonthAccounts]
      exact ih harest _ _

theorem processMonthAccounts_lookup_mem (occurrences : List Occurrence)
    (checkpoints : List AnchorCheckpoint) (ym : String) (wStart wEnd : Int)
    (accounts : List String) (bal : BalMap) (a : String) (cell : EndingBalanceCell)
    (h : recordGet? (processMonthAccounts occurrences checkpoints ym wStart wEnd
      accounts bal []).1 a = some cell) : a ∈ accounts := by
  by_contra hna
  have hframe := (processMonthAccounts_frame occurrences checkpoints ym wStart wEnd
    accounts a hna bal []).1
  rw [h] at hframe
  simp [recordGet?] at hframe

/-- When the running-balance state has the account, the resolved anchor is
never `initial`. -/
theorem resolveAnchor_source_of_isSome (checkpoints : List AnchorCheckpoint)
    (prior : Option ℚ) (account : String) (wStart wEnd : Int)
    (h : prior.isSome) :
    (resolveAnchor checkpoints prior account wStart wEnd).source ≠
      AnchorSource.initial := by
  unfold resolveAnchor
  cases hlast : (sortIsoStrings (filterCheckpointsForWindow checkpoints account
      wStart wEnd)).getLast? with
  | some c => simp
  | none => simp [h]

theorem ebGo_eq_ok (occurrences : List Occurrence) (checkpoints : List AnchorCheckpoint)
    (accounts : List String) (months : List String)
    (h : ∀ ym ∈ months, (parseYM ym).isSome) :
    ∀ (bal : BalMap) (acc : MonthlyMap),
    ebGo occurrences checkpoints accounts months bal acc =
      .ok ((ebTrace occurrences checkpoints accounts months bal).foldl
        (fun a e => recordSet a e.1 e.2) acc) := by
  induction months with
  | nil => intro bal acc; rfl
  | cons ym rest ih =>
    intro bal acc
    cases hpm : parseYM ym with
    | none =>
      have := h ym (by simp)
      rw [hpm] at this
      simp at this
    | some p =>
      obtain ⟨y, m⟩ := p
      simp only [ebGo, ebTrace, hpm, List.foldl_cons]
      exact ih (fun x hx => h x (by simp [hx])) _ _

theorem getLast?_cons_ne {α : Type} (a : α) (l : List α) (h : l ≠ []) :
    (a :: l).getLast? = l.getLast? := by
  cases l with
  | nil => exact absurd rfl h
  | cons b bs => exact List.getLast?_cons_cons

theorem foldl_recordSet_lookup {κ α : Type} [DecidableEq κ]
    (entries : List (κ × α)) (k : κ) :
    ∀ acc : List (κ × α),
    recordGet? (entries.foldl (fun a e => recordSet a e.1 e.2) acc) k =
      (match (entries.filter (fun e => e.1 = k)).getLast? with
        | some e => some e.2
        | none => recordGet? acc k) := by
  induction entries with
  | nil =>
    intro acc
    simp only [List.foldl_nil, List.filter_nil, List.getLast?_nil]
  | cons e es ih =>
    intro acc
    rw [List.foldl_cons, ih (recordSet acc e.1 e.2), List.filter_cons]
    by_cases hk : e.1 = k
    · rw [if_pos (decide_eq_true hk)]
      cases hfe : (es.filter (fun u => decide (u.1 = k))).getLast? with
      | some u =>
        have hne : es.filter (fun u => decide (u.1 = k)) ≠ [] := by
          intro hcon
          rw [hcon] at hfe
          exact Option.noConfusion hfe
        rw [getLast?_cons_ne _ _ hne, hfe]
      | none =>
        rw [List.getLast?_eq_none_iff.mp hfe]
        simp [hk, recordGet?_recordSet_self]
    · rw [if_neg (by simpa using hk)]
      cases hfe : (es.filter (fun u => decide (u.1 = k))).getLast? with
      | some u => rfl
      | none => exact recordGet?_recordSet_other acc e.1 k e.2 hk

theorem listAccounts_nodup (occurrences : List Occurrence)
    (checkpoints : List AnchorCheckpoint) (priorEndingBalances : BalMap) :
    (listAccounts occurrences checkpoints priorEndingBalances).Nodup :=
  nodup_sortLe _ _ (List.nodup_dedup _)

theorem computeEndingBalances_eq_ok (months : List String)
    (occurrences : List Occurrence) (priorEndingBalances : BalMap)
    (checkpoints : List AnchorCheckpoint)
    (h : ∀ ym ∈ months, (parseYM ym).isSome) :
    computeEndingBalances months occurrences priorEndingBalances checkpoints =
      .ok ((ebTrace occurrences checkpoints
          (listAccounts occurrences checkpoints priorEndingBalances)
          (sortLe jsStrLe months) priorEndingBalances).foldl
        (fun a e => recordSet a e.1 e.2) []) := by
  unfold computeEndingBalances
  exact ebGo_eq_ok occurrences checkpoints _ _
    (fun ym hym => h ym ((mem_sortLe jsStrLe months ym).mp hym)) _ _

theorem ebTrace_head (occurrences : List Occurrence)
    (checkpoints : List AnchorCheckpoint) (accounts : List String)
    (months : List String) (bal : BalMap) (ym2 : String)
    (cs2 : List (String × EndingBalanceCell))
    (h : (ebTrace occurrences checkpoints accounts months bal).get? 0 =
      some (ym2, cs2)) :
    ∃ y m, parseYM ym2 = some (y, m) ∧
      cs2 = (processMonthAccounts occurrences checkpoints ym2
        (dateUtcMs y (m - 1)) (dateUtcMs y m) accounts bal []).1 := by
  cases months with
  | nil => simp [ebTrace] at h
  | cons ym rest =>
    cases hpm : parseYM ym with
    | none => simp [ebTrace, hpm] at h
    | some p =>
      obtain ⟨y, m⟩ := p
      simp only [ebTrace, hpm, List.get?_cons_zero, Option.some.injEq, Prod.mk.injEq] at h
      obtain ⟨hym, hcs⟩ := h
      subst hym
      exact ⟨y, m, hpm, hcs.symm⟩

/-- Two consecutive passes of the month loop: the later pass's cell for an
account is computed with the earlier pass's ending balance as its prior
(running) balance. -/
theorem ebTrace_adjacent (occurrences : List Occurrence)
    (checkpoints : List AnchorCheckpoint) (accounts : List String)
    (hnd : accounts.Nodup) :
    ∀ (months : List String) (bal : BalMap) (i : Nat)
      (ym1 ym2 : String) (cs1 cs2 : List (String × EndingBalanceCell)),
    (ebTrace occurrences checkpoints accounts months bal).get? i = some (ym1, cs1) →
    (ebTrace occurrences checkpoints accounts months bal).get? (i + 1) = some (ym2, cs2) →
    ∀ (a : String) (c1 c2 : EndingBalanceCell),
    recordGet? cs1 a = some c1 → recordGet? cs2 a = some c2 →
    ∃ y m, parseYM ym2 = some (y, m) ∧
      c2 = mkMonthCell ym2 a (computeCell occurrences checkpoints (some c1.balance) a
        (dateUtcMs y (m - 1)) (dateUtcMs y m)) := by
  intro months
  induction months with
  | nil =>
    intro bal i ym1 ym2 cs1 cs2 h1 h2 a c1 c2 hc1 hc2
    simp [ebTrace] at h1
  | cons ym rest ih =>
    intro bal i ym1 ym2 cs1 cs2 h1 h2 a c1 c2 hc1 hc2
    cases hpm : parseYM ym with
    | none => simp [ebTrace, hpm] at h1
    | some p =>
      obtain ⟨y, m⟩ := p
      simp only [ebTrace, hpm] at h1 h2
      cases i with
      | succ j =>
        rw [List.get?_cons_succ] at h1 h2
        exact ih _ j ym1 ym2 cs1 cs2 h1 h2 a c1 c2 hc1 hc2
      | zero =>
        rw [List.get?_cons_zero] at h1
        rw [List.get?_cons_succ] at h2
        simp only [Option.some.injEq, Prod.mk.injEq] at h1
        obtain ⟨hym1, hcs1⟩ := h1
        subst hym1
        rw [← hcs1] at hc1
        have hmem := processMonthAccounts_lookup_mem occurrences checkpoints ym
          (dateUtcMs y (m - 1)) (dateUtcMs y m) accounts bal a c1 hc1
        have hlk := (processMonthAccounts_lookup occurrences checkpoints ym
          (dateUtcMs y (m - 1)) (dateUtcMs y m) accounts hnd a hmem bal []).1
        rw [hc1] at hlk
        have hbal := (processMonthAccounts_lookup occurrences checkpoints ym
          (dateUtcMs y (m - 1)) (dateUtcMs y m) accounts hnd a hmem bal []).2
        have hc1bal : c1.balance = (computeCell occurrences checkpoints
            (recordGet? bal a) a (dateUtcMs y (m - 1)) (dateUtcMs y m)).endingBalance := by
          have := congrArg (Option.map (fun c => c.balance)) hlk
          simp only [Option.map_some] at this
          injection this with hval
        obtain ⟨y2, m2, hpm2, hcs2⟩ := ebTrace_head occurrences checkpoints accounts
          rest _ ym2 cs2 h2
        rw [hcs2] at hc2
        have hmem2 := processMonthAccounts_lookup_mem occurrences checkpoints ym2
          (dateUtcMs y2 (m2 - 1)) (dateUtcMs y2 m2) accounts _ a c2 hc2
        have hlk2 := (processMonthAccounts_lookup occurrences checkpoints ym2
          (dateUtcMs y2 (m2 - 1)) (dateUtcMs y2 m2) accounts hnd a hmem2
          (processMonthAccounts occurrences checkpoints ym
            (dateUtcMs y (m - 1)) (dateUtcMs y m) accounts bal []).2 []).1
        rw [hc2] at hlk2
        refine ⟨y2, m2, hpm2, ?_⟩
        have hbal2 : recordGet? (processMonthAccounts occurrences checkpoints ym
            (dateUtcMs y (m - 1)) (dateUtcMs y m) accounts bal []).2 a =
            some c1.balance := by
          rw [hbal]
          exact congrArg some hc1bal.symm
        rw [hbal2] at hlk2
        injection hlk2

theorem mkMonthCell_fields (ym account : String) (r : CellResult) :
    (mkMonthCell ym account r).beginningBalance = r.anchor.balance ∧
    (mkMonthCell ym account r).balance = r.endingBalance ∧
    (mkMonthCell ym account r).netAfterAnchor = r.netAfterAnchor ∧
    (mkMonthCell ym account r).anchor = r.anchor :=
  ⟨rfl, rfl, rfl, rfl⟩

theorem resolveAnchor_ts_indep (checkpoints : List AnchorCheckpoint)
    (account : String) (wStart wEnd : Int) (p1 p2 : Option ℚ) :
    (resolveAnchor checkpoints p1 account wStart wEnd).timestamp =
    (resolveAnchor checkpoints p2 account wStart wEnd).timestamp := by
  cases hlast : (sortIsoStrings (filterCheckpointsForWindow checkpoints account
      wStart wEnd)).getLast? with
  | some c => simp [resolveAnchor, hlast]
  | none => simp [resolveAnchor, hlast]

theorem resolveAnchor_source_cp_iff (checkpoints : List AnchorCheckpoint)
    (account : String) (wStart wEnd : Int) (p1 p2 : Option ℚ) :
    ((resolveAnchor checkpoints p1 account wStart wEnd).source =
      AnchorSource.checkpoint) ↔
    ((resolveAnchor checkpoints p2 account wStart wEnd).source =
      AnchorSource.checkpoint) := by
  cases hlast : (sortIsoStrings (filterCheckpointsForWindow checkpoints account
      wStart wEnd)).getLast? with
  | some c => simp [resolveAnchor, hlast]
  | none =>
    simp only [resolveAnchor, hlast]
    by_cases hp1 : p1.isSome <;> by_cases hp2 : p2.isSome <;> simp [hp1, hp2]

theorem keepAfterAnchor_congr (a1 a2 : AnchorMetadata)
    (hts : a1.timestamp = a2.timestamp)
    (hsrc : a1.source = AnchorSource.checkpoint ↔ a2.source = AnchorSource.checkpoint)
    (o : Occurrence) :
    keepAfterAnchor a1 o = keepAfterAnchor a2 o := by
  simp only [keepAfterAnchor, hts]
  by_cases hlt : o.timestamp < a2.timestamp
  · simp [hlt]
  · simp only [hlt, if_false]
    by_cases hc : a2.source = AnchorSource.checkpoint ∧ o.timestamp = a2.timestamp
    · rw [if_pos hc, if_pos ⟨hsrc.mpr hc.1, hc.2⟩]
    · rw [if_neg hc, if_neg (fun hcon => hc ⟨hsrc.mp hcon.1, hcon.2⟩)]

/-- `netAfterAnchor` does not depend on the running balance: the prior
balance enters the anchor's `balance`/`source` label only, and the
occurrence filter treats `rollforward` and `initial` anchors alike. -/
theorem computeCell_net_prior_indep (occurrences : List Occurrence)
    (checkpoints : List AnchorCheckpoint) (account : String) (wStart wEnd : Int)
    (p1 p2 : Option ℚ) :
    (computeCell occurrences checkpoints p1 account wStart wEnd).netAfterAnchor =
    (computeCell occurrences checkpoints p2 account wStart wEnd).netAfterAnchor := by
  simp only [computeCell_net, netAfter]
  congr 1
  apply List.filter_congr
  intro o _
  exact keepAfterAnchor_congr _ _
    (resolveAnchor_ts_indep checkpoints account wStart wEnd p1 p2)
    (resolveAnchor_source_cp_iff checkpoints account wStart wEnd p1 p2) o
/-- A non-checkpoint anchor is the start-of-window roll-forward (or
uninitialized) anchor, and the window holds no checkpoint of the account. -/
theorem resolveAnchor_not_checkpoint (checkpoints : List AnchorCheckpoint)
    (prior : Option ℚ) (account : String) (wStart wEnd : Int)
    (h : (resolveAnchor checkpoints prior account wStart wEnd).source ≠
      AnchorSource.checkpoint) :
    resolveAnchor checkpoints prior account wStart wEnd =
      { balance := prior.getD 0, timestamp := wStart,
        source := if prior.isSome then AnchorSource.rollforward else AnchorSource.initial,
        checkpointId := none, isInterim := false } := by
  unfold resolveAnchor at h ⊢
  cases hlast : (sortIsoStrings (filterCheckpointsForWindow checkpoints account
      wStart wEnd)).getLast? with
  | some c => rw [hlast] at h; simp at h
  | none => rfl

/-- A checkpoint anchor carries the fields of an in-window checkpoint of
the account (its effective checkpoint). -/
theorem resolveAnchor_checkpoint_shape (checkpoints : List AnchorCheckpoint)
    (prior : Option ℚ) (account : String) (wStart wEnd : Int)
    (h : (resolveAnchor checkpoints prior account wStart wEnd).source =
      AnchorSource.checkpoint) :
    ∃ cp, cp ∈ checkpoints ∧ cp.accountSlug = account ∧
      wStart ≤ cp.timestamp ∧ cp.timestamp < wEnd ∧
      resolveAnchor checkpoints prior account wStart wEnd =
        { balance := cp.balance, timestamp := cp.timestamp,
          source := AnchorSource.checkpoint, checkpointId := some cp.id,
          isInterim := wStart < cp.timestamp } := by
  cases hlast : (sortIsoStrings (filterCheckpointsForWindow checkpoints account
      wStart wEnd)).getLast? with
  | none =>
    exfalso
    unfold resolveAnchor at h
    rw [hlast] at h
    by_cases hp : prior.isSome <;> simp [hp] at h
  | some cp =>
    have heff : effCp (filterCheckpointsForWindow checkpoints account wStart wEnd) =
        some cp := by
      rw [← getLast?_sortIsoStrings, hlast]
    have hmem := effCp_mem _ _ heff
    simp only [filterCheckpointsForWindow, List.mem_filter, decide_eq_true_eq] at hmem
    obtain ⟨hmemcps, hcond⟩ := hmem
    refine ⟨cp, hmemcps, hcond.1, hcond.2.1, hcond.2.2, ?_⟩
    unfold resolveAnchor
    rw [hlast]

/-- Every cell a month pass produces is the per-account computation of its
month window for some prior balance. -/
theorem ebTrace_cell_shape (occurrences : List Occurrence)
    (checkpoints : List AnchorCheckpoint) (accounts : List String)
    (hnd : accounts.Nodup) :
    ∀ (months : List String) (bal : BalMap)
      (e : String × List (String × EndingBalanceCell)),
    e ∈ ebTrace occurrences checkpoints accounts months bal →
    ∀ (a : String) (c : EndingBalanceCell), recordGet? e.2 a = some c →
    ∃ y m p, parseYM e.1 = some (y, m) ∧
      c = mkMonthCell e.1 a (computeCell occurrences checkpoints p a
        (dateUtcMs y (m - 1)) (dateUtcMs y m)) := by
  intro months
  induction months with
  | nil => intro bal e he; simp [ebTrace] at he
  | cons ym rest ih =>
    intro bal e he a c hc
    cases hpm : parseYM ym with
    | none => simp [ebTrace, hpm] at he
    | some p =>
      obtain ⟨y, m⟩ := p
      simp only [ebTrace, hpm, List.mem_cons] at he
      rcases he with he | he
      · subst he
        simp only at hc
        have hmem := processMonthAccounts_lookup_mem occurrences checkpoints ym
          (dateUtcMs y (m - 1)) (dateUtcMs y m) accounts bal a c hc
        have hlk := (processMonthAccounts_lookup occurrences checkpoints ym
          (dateUtcMs y (m - 1)) (dateUtcMs y m) accounts hnd a hmem bal []).1
        rw [hc] at hlk
        injection hlk with hv
        exact ⟨y, m, recordGet? bal a, hpm, hv⟩
      · exact ih _ e he a c hc

/-- After a whole month pass, every account of the universe is a key of the
running-balance state, so no later pass can resolve an `initial` anchor. -/
theorem ebTrace_not_initial_of_covers (occurrences : List Occurrence)
    (checkpoints : List AnchorCheckpoint) (accounts : List String)
    (hnd : accounts.Nodup) :
    ∀ (months : List String) (bal : BalMap),
    (∀ a ∈ accounts, (recordGet? bal a).isSome) →
    ∀ e ∈ ebTrace occurrences checkpoints accounts months bal,
    ∀ (a : String) (c : EndingBalanceCell), recordGet? e.2 a = some c →
    c.anchor.source ≠ AnchorSource.initial := by
  intro months
  induction months with
  | nil => intro bal hcov e he; simp [ebTrace] at he
  | cons ym rest ih =>
    intro bal hcov e he a c hc
    cases hpm : parseYM ym with
    | none => simp [ebTrace, hpm] at he
    | some p =>
      obtain ⟨y, m⟩ := p
      simp only [ebTrace, hpm, List.mem_cons] at he
      rcases he with he | he
      · subst he
        simp only at hc
        have hmem := processMonthAccounts_lookup_mem occurrences checkpoints ym
          (dateUtcMs y (m - 1)) (dateUtcMs y m) accounts bal a c hc
        have hlk := (processMonthAccounts_lookup occurrences checkpoints ym
          (dateUtcMs y (m - 1)) (dateUtcMs y m) accounts hnd a hmem bal []).1
        rw [hc] at hlk
        injection hlk with hv
        rw [hv]
        show (computeCell occurrences checkpoints (recordGet? bal a) a
          (dateUtcMs y (m - 1)) (dateUtcMs y m)).anchor.source ≠ AnchorSource.initial
        rw [computeCell_anchor]
        exact resolveAnchor_source_of_isSome checkpoints (recordGet? bal a) a
          (dateUtcMs y (m - 1)) (dateUtcMs y m) (hcov a hmem)
      · exact ih _ (fun b hb => processMonthAccounts_covers occurrences checkpoints ym
          (dateUtcMs y (m - 1)) (dateUtcMs y m) accounts b hb bal []) e he a c hc

theorem ebTrace_tail_not_initial (occurrences : List Occurrence)
    (checkpoints : List AnchorCheckpoint) (accounts : List String)
    (hnd : accounts.Nodup) (months : List String) (bal : BalMap) :
    ∀ e ∈ (ebTrace occurrences checkpoints accounts months bal).tail,
    ∀ (a : String) (c : EndingBalanceCell), recordGet? e.2 a = some c →
    c.anchor.source ≠ AnchorSource.initial := by
  cases months with
  | nil => intro e he; simp [ebTrace] at he
  | cons ym rest =>
    cases hpm : parseYM ym with
    | none => intro e he; simp [ebTrace, hpm] at he
    | some p =>
      obtain ⟨y, m⟩ := p
      intro e he a c hc
      simp only [ebTrace, hpm, List.tail_cons] at he
      exact ebTrace_not_initial_of_covers occurrences checkpoints accounts hnd rest _
        (fun b hb => processMonthAccounts_covers occurrences checkpoints ym
          (dateUtcMs y (m - 1)) (dateUtcMs y m) accounts b hb bal []) e he a c hc

/-! ## Merging adjacent windows

The single-account computation over a window `[S, E)` equals the
composition of the computations over `[S, M)` and `[M, E)`, threading the
intermediate ending balance.  This is what makes the independent weekly
pass reconcile with the monthly pass. -/
/-- If `q` selects a subset of `p` (on `l`), every `q`-element is at or
after `M`, and every `p`-but-not-`q` element is strictly before `M`, then a
non-empty `q`-selection has the same effective (last maximal-timestamp)
checkpoint as the `p`-selection. -/
theorem effCp_filter_sub (p q : AnchorCheckpoint → Bool) (M : Int) :
    ∀ l : List AnchorCheckpoint,
    (∀ x ∈ l, q x = true → p x = true) →
    (∀ x ∈ l, q x = true → M ≤ x.timestamp) →
    (∀ x ∈ l, p x = true → q x = false → x.timestamp < M) →
    ∀ c, effCp (l.filter q) = some c → effCp (l.filter p) = some c := by
  intro l
  induction l with
  | nil => intro _ _ _ c hc; simp [effCp] at hc
  | cons x xs ih =>
    intro himp hqts hpq c hc
    have himp' : ∀ z ∈ xs, q z = true → p z = true :=
      fun z hz => himp z (List.mem_cons_of_mem x hz)
    have hqts' : ∀ z ∈ xs, q z = true → M ≤ z.timestamp :=
      fun z hz => hqts z (List.mem_cons_of_mem x hz)
    have hpq' : ∀ z ∈ xs, p z = true → q z = false → z.timestamp < M :=
      fun z hz => hpq z (List.mem_cons_of_mem x hz)
    by_cases hqx : q x = true
    · have hpx : p x = true := himp x (by simp) hqx
      rw [List.filter_cons_of_pos hqx] at hc
      rw [List.filter_cons_of_pos hpx]
      simp only [effCp] at hc ⊢
      cases hq2 : effCp (xs.filter q) with
      | none =>
        rw [hq2] at hc
        simp only at hc
        rw [← hc]
        cases hp2 : effCp (xs.filter p) with
        | none => rfl
        | some z =>
          have hz : z ∈ xs.filter p := effCp_mem _ _ hp2
          rw [List.mem_filter] at hz
          have hqz : q z = false := by
            cases hqz : q z with
            | false => rfl
            | true =>
              exfalso
              have : xs.filter q = [] := (effCp_eq_none_iff _).mp hq2
              have : z ∈ xs.filter q := List.mem_filter.mpr ⟨hz.1, hqz⟩
              rw [‹xs.filter q = []›] at this
              simp at this
          have hltM : z.timestamp < M := hpq' z hz.1 hz.2 hqz
          have hMx : M ≤ x.timestamp := hqts x (by simp) hqx
          show (if z.timestamp < x.timestamp then some x else some z) = some x
          rw [if_pos (by omega)]
      | some yq =>
        rw [hq2] at hc
        have hp2 := ih himp' hqts' hpq' yq hq2
        rw [hp2]
        exact hc
    · have hqxf : q x = false := by
        cases hq : q x with
        | false => rfl
        | true => exact absurd hq hqx
      rw [List.filter_cons_of_neg (by simp [hqxf])] at hc
      by_cases hpx : p x = true
      · rw [List.filter_cons_of_pos hpx]
        have hp2 := ih himp' hqts' hpq' c hc
        simp only [effCp]
        rw [hp2]
        have hcmem : c ∈ xs.filter q := effCp_mem _ _ hc
        rw [List.mem_filter] at hcmem
        have hMc : M ≤ c.timestamp := hqts' c hcmem.1 hcmem.2
        have hxM : x.timestamp < M := hpq x (by simp) hpx hqxf
        show (if c.timestamp < x.timestamp then some x else some c) = some c
        rw [if_neg (by omega)]
      · rw [List.filter_cons_of_neg (by simpa using hpx)]
        exact ih himp' hqts' hpq' c hc

theorem netAfter_single (occurrences : List Occurrence) (anchor : AnchorMetadata)
    (account : String) (wStart wEnd : Int) :
    netAfter occurrences anchor account wStart wEnd =
      ((occurrences.filter (fun o =>
        keepAfterAnchor anchor o &&
          decide (o.accountSlug = account ∧ wStart ≤ o.timestamp ∧ o.timestamp < wEnd))).map
        (·.amount)).sum := by
  rw [netAfter_eq_sum, filterOccurrencesForWindow, List.filter_filter]

theorem keepAfterAnchor_checkpoint (anchor : AnchorMetadata)
    (h : anchor.source = AnchorSource.checkpoint) (o : Occurrence) :
    keepAfterAnchor anchor o = decide (anchor.timestamp < o.timestamp) := by
  simp only [keepAfterAnchor, h]
  by_cases h1 : o.timestamp < anchor.timestamp
  · rw [if_pos h1]
    have : ¬ anchor.timestamp < o.timestamp := by omega
    simp [this]
  · rw [if_neg h1]
    by_cases h2 : o.timestamp = anchor.timestamp
    · rw [if_pos ⟨trivial, h2⟩]
      have : ¬ anchor.timestamp < o.timestamp := by omega
      simp [this]
    · rw [if_neg (fun hc => h2 hc.2)]
      have : anchor.timestamp < o.timestamp := by omega
      simp [this]

theorem keepAfterAnchor_not_checkpoint (anchor : AnchorMetadata)
    (h : anchor.source ≠ AnchorSource.checkpoint) (o : Occurrence) :
    keepAfterAnchor anchor o = decide (anchor.timestamp ≤ o.timestamp) := by
  simp only [keepAfterAnchor]
  by_cases h1 : o.timestamp < anchor.timestamp
  · rw [if_pos h1]
    have : ¬ anchor.timestamp ≤ o.timestamp := by omega
    simp [this]
  · rw [if_neg h1, if_neg (fun hc => h (hc.1))]
    have : anchor.timestamp ≤ o.timestamp := by omega
    simp [this]

theorem resolveAnchor_eq_effCp (checkpoints : List AnchorCheckpoint) (prior : Option ℚ)
    (account : String) (wStart wEnd : Int) :
    resolveAnchor checkpoints prior account wStart wEnd =
      (match effCp (filterCheckpointsForWindow checkpoints account wStart wEnd) with
      | some c =>
        { balance := c.balance, timestamp := c.timestamp,
          source := AnchorSource.checkpoint, checkpointId := some c.id,
          isInterim := wStart < c.timestamp }
      | none =>
        { balance := prior.getD 0, timestamp := wStart,
          source := if prior.isSome then AnchorSource.rollforward else AnchorSource.initial,
          checkpointId := none, isInterim := false }) := by
  unfold resolveAnchor
  rw [getLast?_sortIsoStrings]

theorem bool_and_decide (b : Bool) (P : Prop) [Decidable P] :
    (b && decide P) = decide (b = true ∧ P) := by
  cases hb : b <;> simp [hb]

theorem decide_or_eq (P Q : Prop) [Decidable P] [Decidable Q] :
    decide (P ∨ Q) = (decide P || decide Q) := by
  by_cases hp : P <;> by_cases hq : Q <;> simp [hp, hq]

theorem netAfter_as (occurrences : List Occurrence) (anchor : AnchorMetadata)
    (account : String) (wStart wEnd : Int) (P : Occurrence → Prop) [DecidablePred P]
    (h : ∀ o, (keepAfterAnchor anchor o = true ∧
      (o.accountSlug = account ∧ wStart ≤ o.timestamp ∧ o.timestamp < wEnd)) ↔ P o) :
    netAfter occurrences anchor account wStart wEnd =
      ((occurrences.filter (fun o => decide (P o))).map (·.amount)).sum := by
  rw [netAfter_single]
  congr 1
  congr 1
  apply List.filter_congr
  intro o _
  rw [bool_and_decide]
  exact decide_eq_decide.mpr (h o)

/-- Composing the per-account computation over `[S, M)` and `[M, E)`,
threading the intermediate ending balance, yields the computation over
`[S, E)`. -/
theorem computeCell_merge (occurrences : List Occurrence)
    (checkpoints : List AnchorCheckpoint) (account : String) (S M E : Int)
    (hSM : S ≤ M) (hME : M ≤ E) (p : Option ℚ) :
    (computeCell occurrences checkpoints
      (some (computeCell occurrences checkpoints p account S M).endingBalance)
      account M E).endingBalance =
    (computeCell occurrences checkpoints p account S E).endingBalance := by
  rcases hme : effCp (filterCheckpointsForWindow checkpoints account M E) with _ | c
  · -- no checkpoint in [M, E)
    have hmenil : checkpoints.filter (fun cp =>
        decide (cp.accountSlug = account ∧ M ≤ cp.timestamp ∧ cp.timestamp < E)) = [] := by
      have := (effCp_eq_none_iff _).mp hme
      simpa only [filterCheckpointsForWindow] using this
    have hmemnone : ∀ x ∈ checkpoints,
        ¬ (x.accountSlug = account ∧ M ≤ x.timestamp ∧ x.timestamp < E) := by
      intro x hx
      have := List.filter_eq_nil_iff.mp hmenil x hx
      simpa using this
    have hSE_SM : filterCheckpointsForWindow checkpoints account S E =
        filterCheckpointsForWindow checkpoints account S M := by
      simp only [filterCheckpointsForWindow]
      apply List.filter_congr
      intro x hx
      apply decide_eq_decide.mpr
      constructor
      · rintro ⟨h1, h2, h3⟩
        refine ⟨h1, h2, ?_⟩
        by_contra hge
        push_neg at hge
        exact hmemnone x hx ⟨h1, by omega, h3⟩
      · rintro ⟨h1, h2, h3⟩
        exact ⟨h1, h2, by omega⟩
    rcases hsm : effCp (filterCheckpointsForWindow checkpoints account S M) with _ | c
    · -- case 3: no checkpoints at all
      have hse : effCp (filterCheckpointsForWindow checkpoints account S E) = none := by
        rw [hSE_SM, hsm]
      simp only [computeCell_ending, resolveAnchor_eq_effCp, hme, hse, hsm]
      rw [netAfter_as occurrences _ account M E
          (fun o => o.accountSlug = account ∧ M ≤ o.timestamp ∧ o.timestamp < E)
          (fun o => by
            rw [keepAfterAnchor_not_checkpoint _ (by
              simp only []
              split <;> simp) o]
            simp only [decide_eq_true_eq]
            constructor
            · rintro ⟨h1, h2⟩; exact h2
            · rintro ⟨h1, h2, h3⟩; exact ⟨h2, h1, h2, h3⟩),
        netAfter_as occurrences _ account S M
          (fun o => o.accountSlug = account ∧ S ≤ o.timestamp ∧ o.timestamp < M)
          (fun o => by
            rw [keepAfterAnchor_not_checkpoint _ (by
              simp only []
              split <;> simp) o]
            simp only [decide_eq_true_eq]
            constructor
            · rintro ⟨h1, h2⟩; exact h2
            · rintro ⟨h1, h2, h3⟩; exact ⟨h2, h1, h2, h3⟩),
        netAfter_as occurrences _ account S E
          (fun o => o.accountSlug = account ∧ S ≤ o.timestamp ∧ o.timestamp < E)
          (fun o => by
            rw [keepAfterAnchor_not_checkpoint _ (by
              simp only []
              split <;> simp) o]
            simp only [decide_eq_true_eq]
            constructor
            · rintro ⟨h1, h2⟩; exact h2
            · rintro ⟨h1, h2, h3⟩; exact ⟨h2, h1, h2, h3⟩)]
      rw [sum_map_filter_split occurrences (·.amount)
        (fun o => decide (o.accountSlug = account ∧ S ≤ o.timestamp ∧ o.timestamp < E))
        (fun o => decide (o.accountSlug = account ∧ S ≤ o.timestamp ∧ o.timestamp < M))
        (fun o => decide (o.accountSlug = account ∧ M ≤ o.timestamp ∧ o.timestamp < E))
        (fun o _ => by
          rw [← decide_or_eq]
          apply decide_eq_decide.mpr
          constructor
          · rintro ⟨h1, h2, h3⟩
            by_cases hm : o.timestamp < M
            · exact Or.inl ⟨h1, h2, hm⟩
            · exact Or.inr ⟨h1, by omega, h3⟩
          · rintro (⟨h1, h2, h3⟩ | ⟨h1, h2, h3⟩)
            · exact ⟨h1, h2, by omega⟩
            · exact ⟨h1, by omega, h3⟩)
        (fun o _ => by
          simp only [decide_eq_true_eq]
          rintro ⟨⟨_, _, h3⟩, ⟨_, h2, _⟩⟩
          omega)]
      simp only [Option.getD_some]
      ring
    · -- case 2: effective checkpoint in [S, M), none in [M, E)
      have hse : effCp (filterCheckpointsForWindow checkpoints account S E) = some c := by
        rw [hSE_SM, hsm]
      have hcmem := effCp_mem _ _ hsm
      simp only [filterCheckpointsForWindow, List.mem_filter, decide_eq_true_eq] at hcmem
      obtain ⟨hcin, hcA, hcS, hcM⟩ := hcmem
      simp only [computeCell_ending, resolveAnchor_eq_effCp, hme, hse, hsm]
      rw [netAfter_as occurrences _ account M E
          (fun o => o.accountSlug = account ∧ M ≤ o.timestamp ∧ o.timestamp < E)
          (fun o => by
            rw [keepAfterAnchor_not_checkpoint _ (by
              simp only []
              split <;> simp) o]
            simp only [decide_eq_true_eq]
            constructor
            · rintro ⟨h1, h2⟩; exact h2
            · rintro ⟨h1, h2, h3⟩; exact ⟨h2, h1, h2, h3⟩),
        netAfter_as occurrences _ account S M
          (fun o => (o.accountSlug = account ∧ S ≤ o.timestamp ∧ o.timestamp < M) ∧
            c.timestamp < o.timestamp)
          (fun o => by
            rw [keepAfterAnchor_checkpoint _ rfl o]
            simp only [decide_eq_true_eq]
            constructor
            · rintro ⟨h1, h2⟩; exact ⟨h2, h1⟩
            · rintro ⟨h1, h2⟩; exact ⟨h2, h1⟩),
        netAfter_as occurrences _ account S E
          (fun o => (o.accountSlug = account ∧ S ≤ o.timestamp ∧ o.timestamp < E) ∧
            c.timestamp < o.timestamp)
          (fun o => by
            rw [keepAfterAnchor_checkpoint _ rfl o]
            simp only [decide_eq_true_eq]
            constructor
            · rintro ⟨h1, h2⟩; exact ⟨h2, h1⟩
            · rintro ⟨h1, h2⟩; exact ⟨h2, h1⟩)]
      rw [sum_map_filter_split occurrences (·.amount)
        (fun o => decide ((o.accountSlug = account ∧ S ≤ o.timestamp ∧ o.timestamp < E) ∧
          c.timestamp < o.timestamp))
        (fun o => decide ((o.accountSlug = account ∧ S ≤ o.timestamp ∧ o.timestamp < M) ∧
          c.timestamp < o.timestamp))
        (fun o => decide (o.accountSlug = account ∧ M ≤ o.timestamp ∧ o.timestamp < E))
        (fun o _ => by
          rw [← decide_or_eq]
          apply decide_eq_decide.mpr
          constructor
          · rintro ⟨⟨h1, h2, h3⟩, h4⟩
            by_cases hm : o.timestamp < M
            · exact Or.inl ⟨⟨h1, h2, hm⟩, h4⟩
            · exact Or.inr ⟨h1, by omega, h3⟩
          · rintro (⟨⟨h1, h2, h3⟩, h4⟩ | ⟨h1, h2, h3⟩)
            · exact ⟨⟨h1, h2, by omega⟩, h4⟩
            · exact ⟨⟨h1, by omega, h3⟩, by omega⟩)
        (fun o _ => by
          simp only [decide_eq_true_eq]
          rintro ⟨⟨⟨_, _, h3⟩, _⟩, ⟨_, h2, _⟩⟩
          omega)]
      simp only [Option.getD_some]
      ring
  · -- case 1: effective checkpoint in [M, E)
    have hcmem := effCp_mem _ _ hme
    simp only [filterCheckpointsForWindow, List.mem_filter, decide_eq_true_eq] at hcmem
    obtain ⟨hcin, hcA, hcM, hcE⟩ := hcmem
    have hse : effCp (filterCheckpointsForWindow checkpoints account S E) = some c := by
      have := effCp_filter_sub
        (fun cp => decide (cp.accountSlug = account ∧ S ≤ cp.timestamp ∧ cp.timestamp < E))
        (fun cp => decide (cp.accountSlug = account ∧ M ≤ cp.timestamp ∧ cp.timestamp < E))
        M checkpoints
        (fun x _ hx => by
          simp only [decide_eq_true_eq] at hx ⊢
          exact ⟨hx.1, by omega, hx.2.2⟩)
        (fun x _ hx => by
          simp only [decide_eq_true_eq] at hx
          exact hx.2.1)
        (fun x _ hpx hqx => by
          simp only [decide_eq_true_eq] at hpx
          simp only [decide_eq_false_iff_not] at hqx
          by_contra hge
          push_neg at hge
          exact hqx ⟨hpx.1, hge, hpx.2.2⟩)
        c
      simp only [filterCheckpointsForWindow]
      apply this
      simpa only [filterCheckpointsForWindow] using hme
    simp only [computeCell_ending, resolveAnchor_eq_effCp, hme, hse]
    congr 1
    rw [netAfter_as occurrences _ account M E
        (fun o => c.timestamp < o.timestamp ∧ o.accountSlug = account ∧ o.timestamp < E)
        (fun o => by
          rw [keepAfterAnchor_checkpoint _ rfl o]
          simp only [decide_eq_true_eq]
          constructor
          · rintro ⟨h1, h2, h3, h4⟩; exact ⟨h1, h2, h4⟩
          · rintro ⟨h1, h2, h3⟩; exact ⟨h1, h2, by omega, h3⟩),
      netAfter_as occurrences _ account S E
        (fun o => c.timestamp < o.timestamp ∧ o.accountSlug = account ∧ o.timestamp < E)
        (fun o => by
          rw [keepAfterAnchor_checkpoint _ rfl o]
          simp only [decide_eq_true_eq]
          constructor
          · rintro ⟨h1, h2, h3, h4⟩; exact ⟨h1, h2, h4⟩
          · rintro ⟨h1, h2, h3⟩; exact ⟨h1, h2, by omega, h3⟩)]

/-! ## Folding the per-account computation over a partition of a window -/
theorem chain_start_le_lastEnd :
    ∀ (ws : List WeekWindow) (w : WeekWindow),
    List.Chain' (fun w1 w2 => w1.wEnd = w2.wStart) (w :: ws) →
    (∀ u ∈ w :: ws, u.wStart ≤ u.wEnd) →
    w.wStart ≤ ((w :: ws).getLast (by simp)).wEnd := by
  intro ws
  induction ws with
  | nil =>
    intro w _ hle
    exact hle w (by simp)
  | cons w2 rest ih =>
    intro w hchain hle
    rw [List.getLast_cons (by simp)]
    have hch := List.chain'_cons.mp hchain
    have h2 := ih w2 hch.2 (fun u hu => hle u (List.mem_cons_of_mem w hu))
    have h1 := hle w (by simp)
    omega

theorem computeCell_fold_partition (occurrences : List Occurrence)
    (checkpoints : List AnchorCheckpoint) (account : String) :
    ∀ (ws : List WeekWindow) (w : WeekWindow) (p : Option ℚ),
    List.Chain' (fun w1 w2 => w1.wEnd = w2.wStart) (w :: ws) →
    (∀ u ∈ w :: ws, u.wStart ≤ u.wEnd) →
    (w :: ws).foldl (fun b u =>
        some (computeCell occurrences checkpoints b account u.wStart u.wEnd).endingBalance) p =
      some (computeCell occurrences checkpoints p account w.wStart
        (((w :: ws).getLast (by simp)).wEnd)).endingBalance := by
  intro ws
  induction ws with
  | nil => intro w p _ _; rfl
  | cons w2 rest ih =>
    intro w p hchain hle
    have hch := List.chain'_cons.mp hchain
    rw [List.foldl_cons]
    rw [ih w2 _ hch.2 (fun u hu => hle u (List.mem_cons_of_mem w hu))]
    have hg : ((w :: w2 :: rest).getLast (by simp)) =
        ((w2 :: rest).getLast (by simp)) := List.getLast_cons (by simp)
    rw [hg]
    have hW : w.wStart ≤ w.wEnd := hle w (by simp)
    have h2 := chain_start_le_lastEnd rest w2 hch.2
      (fun u hu => hle u (List.mem_cons_of_mem w hu))
    rw [← hch.1] at h2 ⊢
    exact congrArg some
      (computeCell_merge occurrences checkpoints account w.wStart w.wEnd
        ((w2 :: rest).getLast (by simp)).wEnd hW h2 p)

/-! ## The weekly inner loops: per-account projection -/
theorem processWeekAccounts_frame (occurrences : List Occurrence)
    (checkpoints : List AnchorCheckpoint) (ym : String) (week : WeekWindow)
    (accounts : List String) (a : String) (ha : a ∉ accounts) :
    ∀ (bal : BalMap) (cells : List (String × WeeklyBalanceCell)),
    recordGet? (processWeekAccounts occurrences checkpoints ym week
        accounts bal cells).1 a = recordGet? cells a ∧
    recordGet? (processWeekAccounts occurrences checkpoints ym week
        accounts bal cells).2 a = recordGet? bal a := by
  induction accounts with
  | nil => intro bal cells; exact ⟨rfl, rfl⟩
  | cons b rest ih =>
    intro bal cells
    have hab : a ≠ b := fun hcon => ha (hcon ▸ List.mem_cons_self b rest)
    have hrest : a ∉ rest := fun hcon => ha (List.mem_cons_of_mem b hcon)
    simp only [processWeekAccounts]
    rw [(ih hrest _ _).1, (ih hrest _ _).2,
      recordGet?_recordSet_other _ b a _ (Ne.symm hab),
      recordGet?_recordSet_other _ b a _ (Ne.symm hab)]
    exact ⟨rfl, rfl⟩

theorem processWeekAccounts_lookup (occurrences : List Occurrence)
    (checkpoints : List AnchorCheckpoint) (ym : String) (week : WeekWindow)
    (accounts : List String) (hnd : accounts.Nodup) (a : String) (ha : a ∈ accounts) :
    ∀ (bal : BalMap) (cells : List (String × WeeklyBalanceCell)),
    recordGet? (processWeekAccounts occurrences checkpoints ym week
        accounts bal cells).1 a =
      some (mkWeekCell ym a week.weekKey
        (computeCell occurrences checkpoints (recordGet? bal a) a
          week.wStart week.wEnd)) ∧
    recordGet? (processWeekAccounts occurrences checkpoints ym week
        accounts bal cells).2 a =
      some (computeCell occurrences checkpoints (recordGet? bal a) a
        week.wStart week.wEnd).endingBalance := by
  induction accounts with
  | nil => cases ha
  | cons b rest ih =>
    intro bal cells
    rcases List.mem_cons.mp ha with hab | harest
    · subst hab
      have hnotin : a ∉ rest := (List.nodup_cons.mp hnd).1
      simp only [processWeekAccounts]
      have hframe := processWeekAccounts_frame occurrences checkpoints ym week
        rest a hnotin (recordSet bal a (computeCell occurrences checkpoints
          (recordGet? bal a) a week.wStart week.wEnd).endingBalance)
        (recordSet cells a (mkWeekCell ym a week.weekKey (computeCell occurrences checkpoints
          (recordGet? bal a) a week.wStart week.wEnd)))
      rw [hframe.1, hframe.2, recordGet?_recordSet_self, recordGet?_recordSet_self]
      exact ⟨rfl, rfl⟩
    · have hab : b ≠ a := by
        intro hcon
        subst hcon
        exact (List.nodup_cons.mp hnd).1 harest
      simp only [processWeekAccounts]
      have ih2 := ih (List.nodup_cons.mp hnd).2 harest
        (recordSet bal b (computeCell occurrences checkpoints
          (recordGet? bal b) b week.wStart week.wEnd).endingBalance)
        (recordSet cells b (mkWeekCell ym b week.weekKey (computeCell occurrences checkpoints
          (recordGet? bal b) b week.wStart week.wEnd)))
      rwa [recordGet?_recordSet_other _ b a _ hab] at ih2

theorem processWeekAccounts_lookup_mem (occurrences : List Occurrence)
    (checkpoints : List AnchorCheckpoint) (ym : String) (week : WeekWindow)
    (accounts : List String) (bal : BalMap) (a : String) (cell : WeeklyBalanceCell)
    (h : recordGet? (processWeekAccounts occurrences checkpoints ym week
      accounts bal []).1 a = some cell) : a ∈ accounts := by
  by_contra hna
  have hframe := (processWeekAccounts_frame occurrences checkpoints ym week
    accounts a hna bal []).1
  rw [h] at hframe
  simp [recordGet?] at hframe

/-! ## The week loop of one month -/
theorem recordSet_append {κ α : Type} [DecidableEq κ] :
    ∀ (m : List (κ × α)) (k : κ) (v : α), (∀ e ∈ m, e.1 ≠ k) →
    recordSet m k v = m ++ [(k, v)] := by
  intro m
  induction m with
  | nil => intro k v _; rfl
  | cons e rest ih =>
    intro k v h
    have hek : e.1 ≠ k := h e (by simp)
    obtain ⟨k0, v0⟩ := e
    simp only [recordSet, if_neg hek, List.cons_append]
    rw [ih k v (fun u hu => h u (List.mem_cons_of_mem _ hu))]

/-- The running balance of one account through the weeks of a month is the
fold of the per-window computation over those weeks. -/
theorem processWeeks_bal (occurrences : List Occurrence)
    (checkpoints : List AnchorCheckpoint) (ym : String) (accounts : List String)
    (hnd : accounts.Nodup) (a : String) (ha : a ∈ accounts) :
    ∀ (weeks : List WeekWindow) (bal : BalMap) (acc : WeeklyMonthMap),
    recordGet? (processWeeks occurrences checkpoints ym accounts weeks bal acc).2 a =
      weeks.foldl (fun b u =>
        some (computeCell occurrences checkpoints b a u.wStart u.wEnd).endingBalance)
        (recordGet? bal a) := by
  intro weeks
  induction weeks with
  | nil => intro bal acc; rfl
  | cons week rest ih =>
    intro bal acc
    simp only [processWeeks, List.foldl_cons]
    rw [ih _ _]
    congr 1
    exact (processWeekAccounts_lookup occurrences checkpoints ym week accounts hnd
      a ha bal []).2

theorem processWeeks_bal_frame (occurrences : List Occurrence)
    (checkpoints : List AnchorCheckpoint) (ym : String) (accounts : List String)
    (a : String) (ha : a ∉ accounts) :
    ∀ (weeks : List WeekWindow) (bal : BalMap) (acc : WeeklyMonthMap),
    recordGet? (processWeeks occurrences checkpoints ym accounts weeks bal acc).2 a =
      recordGet? bal a := by
  intro weeks
  induction weeks with
  | nil => intro bal acc; rfl
  | cons week rest ih =>
    intro bal acc
    simp only [processWeeks]
    rw [ih _ _]
    exact (processWeekAccounts_frame occurrences checkpoints ym week accounts a ha
      bal []).2

/-- The last entry of a month's week map is the last week's cells, and an
account's cell there carries the account's end-of-loop running balance. -/
theorem processWeeks_last_cell (occurrences : List Occurrence)
    (checkpoints : List AnchorCheckpoint) (ym : String) (accounts : List String)
    (hnd : accounts.Nodup) (a : String) (ha : a ∈ accounts) :
    ∀ (weeks : List WeekWindow) (bal : BalMap) (acc : WeeklyMonthMap),
    weeks ≠ [] →
    List.Pairwise (fun u v => u.weekKey ≠ v.weekKey) weeks →
    (∀ e ∈ acc, ∀ u ∈ weeks, e.1 ≠ u.weekKey) →
    ∃ (k : Int) (wcells : List (String × WeeklyBalanceCell)) (cell : WeeklyBalanceCell),
      (processWeeks occurrences checkpoints ym accounts weeks bal acc).1.getLast? =
        some (k, wcells) ∧
      recordGet? wcells a = some cell ∧
      recordGet? (processWeeks occurrences checkpoints ym accounts weeks bal acc).2 a =
        some cell.balance := by
  intro weeks
  induction weeks with
  | nil => intro bal acc h; exact absurd rfl h
  | cons week rest ih =>
    intro bal acc _ hpw hfresh
    cases rest with
    | nil =>
      simp only [processWeeks]
      refine ⟨week.weekKey,
        (processWeekAccounts occurrences checkpoints ym week accounts bal []).1, ?_⟩
      have hset := recordSet_append acc week.weekKey
        (processWeekAccounts occurrences checkpoints ym week accounts bal []).1
        (fun e he => hfresh e he week (by simp))
      rw [hset]
      have hlk := processWeekAccounts_lookup occurrences checkpoints ym week accounts
        hnd a ha bal []
      exact ⟨_, by rw [List.getLast?_concat], hlk.1, hlk.2⟩
    | cons w2 rest2 =>
      simp only [processWeeks]
      apply ih _ _ (by simp) (List.pairwise_cons.mp hpw).2
      intro e he u hu
      rcases List.mem_append.mp (by
          rw [← recordSet_append acc week.weekKey _
            (fun e2 he2 => hfresh e2 he2 week (by simp))]
          exact he) with hacc | hnew
      · exact hfresh e hacc u (List.mem_cons_of_mem week hu)
      · have : e = (week.weekKey,
            (processWeekAccounts occurrences checkpoints ym week accounts bal []).1) := by
          simpa using hnew
        rw [this]
        exact (List.pairwise_cons.mp hpw).1 u hu

theorem wbGo_eq_ok (occurrences : List Occurrence) (checkpoints : List AnchorCheckpoint)
    (accounts : List String) (months : List String)
    (h : ∀ ym ∈ months, (parseYM ym).isSome) :
    ∀ (bal : BalMap) (acc : WeeklyMap),
    wbGo occurrences checkpoints accounts months bal acc =
      .ok ((wbTrace occurrences checkpoints accounts months bal).foldl
        (fun a e => recordSet a e.1 e.2) acc) := by
  induction months with
  | nil => intro bal acc; rfl
  | cons ym rest ih =>
    intro bal acc
    cases hpm : parseYM ym with
    | none =>
      have := h ym (by simp)
      rw [hpm] at this
      simp at this
    | some p =>
      obtain ⟨y, m⟩ := p
      simp only [wbGo, wbTrace, hpm, List.foldl_cons]
      exact ih (fun x hx => h x (by simp [hx])) _ _

theorem computeWeeklyBalances_eq_ok (months : List String)
    (occurrences : List Occurrence) (priorEndingBalances : BalMap)
    (checkpoints : List AnchorCheckpoint)
    (h : ∀ ym ∈ months, (parseYM ym).isSome) :
    computeWeeklyBalances months occurrences priorEndingBalances checkpoints =
      .ok ((wbTrace occurrences checkpoints
          (listAccounts occurrences checkpoints priorEndingBalances)
          (sortLe jsStrLe months) priorEndingBalances).foldl
        (fun a e => recordSet a e.1 e.2) []) := by
  unfold computeWeeklyBalances
  exact wbGo_eq_ok occurrences checkpoints _ _
    (fun ym hym => h ym ((mem_sortLe jsStrLe months ym).mp hym)) _ _

theorem forall2_filter {α β : Type} (R : α → β → Prop) (p : α → Bool) (q : β → Bool)
    (hpq : ∀ x y, R x y → p x = q y) :
    ∀ (l1 : List α) (l2 : List β), List.Forall₂ R l1 l2 →
    List.Forall₂ R (l1.filter p) (l2.filter q) := by
  intro l1 l2 h
  induction h with
  | nil => simp
  | cons hR hrest ih =>
    rename_i x y t1 t2
    cases hp : p x with
    | true =>
      rw [List.filter_cons_of_pos hp, List.filter_cons_of_pos (by rw [← hpq x y hR]; exact hp)]
      exact List.Forall₂.cons hR ih
    | false =>
      rw [List.filter_cons_of_neg (by simp [hp]),
        List.filter_cons_of_neg (by rw [← hpq x y hR]; simp [hp])]
      exact ih

theorem forall2_getLast? {α β : Type} (R : α → β → Prop) :
    ∀ (l1 : List α) (l2 : List β), List.Forall₂ R l1 l2 →
    (l1.getLast? = none ∧ l2.getLast? = none) ∨
    ∃ x y, l1.getLast? = some x ∧ l2.getLast? = some y ∧ R x y := by
  intro l1 l2 h
  induction h with
  | nil => exact Or.inl ⟨rfl, rfl⟩
  | cons hR hrest ih =>
    rename_i x y t1 t2
    rcases ih with ⟨h1, h2⟩ | ⟨x', y', h1, h2, hR'⟩
    · have ht1 : t1 = [] := List.getLast?_eq_none_iff.mp h1
      have ht2 : t2 = [] := List.getLast?_eq_none_iff.mp h2
      subst ht1
      subst ht2
      exact Or.inr ⟨x, y, rfl, rfl, hR⟩
    · have hne1 : t1 ≠ [] := by
        intro hcon
        rw [hcon] at h1
        exact Option.noConfusion h1
      have hne2 : t2 ≠ [] := by
        intro hcon
        rw [hcon] at h2
        exact Option.noConfusion h2
      exact Or.inr ⟨x', y', by rw [getLast?_cons_ne _ _ hne1]; exact h1,
        by rw [getLast?_cons_ne _ _ hne2]; exact h2, hR'⟩

theorem chainKeys_pairwise_ne (l : List WeekWindow)
    (h : List.Chain' (fun w1 w2 => w1.weekKey < w2.weekKey) l) :
    List.Pairwise (fun u v => u.weekKey ≠ v.weekKey) l := by
  haveI : IsTrans WeekWindow (fun u v => u.weekKey < v.weekKey) :=
    ⟨fun a b c h1 h2 => by omega⟩
  have hp := List.chain'_iff_pairwise.mp h
  exact hp.imp (fun hlt => by omega)

/-- The monthly and weekly month loops, run from pointwise-equal
running-balance states, produce pass-for-pass reconciled traces. -/
theorem traces_reconcile (occurrences : List Occurrence)
    (checkpoints : List AnchorCheckpoint) (accounts : List String)
    (hnd : accounts.Nodup) :
    ∀ (months : List String) (balM balW : BalMap),
    (∀ k, recordGet? balW k = recordGet? balM k) →
    List.Forall₂ reconRel (ebTrace occurrences checkpoints accounts months balM)
      (wbTrace occurrences checkpoints accounts months balW) := by
  intro months
  induction months with
  | nil => intro balM balW hsync; exact List.Forall₂.nil
  | cons ym rest ih =>
    intro balM balW hsync
    cases hpm : parseYM ym with
    | none =>
      simp only [ebTrace, wbTrace, hpm]
      exact List.Forall₂.nil
    | some p =>
      obtain ⟨y, m⟩ := p
      simp only [ebTrace, wbTrace, hpm]
      have hlt : dateUtcMs y (m - 1) < dateUtcMs y m := monthStart_lt_monthEnd y m
      have hfuel : dateUtcMs y m - dateUtcMs y (m - 1) ≤
          ((((dateUtcMs y m - dateUtcMs y (m - 1)) / dayMs).toNat + 2 : Nat) : Int) *
            dayMs := by
        push_cast
        simp only [dayMs]
        omega
      obtain ⟨w, ws, hgo, hst, hchain, hlast, hprops, hkeys⟩ :=
        weeksGo_spec (dateUtcMs y m)
          (((dateUtcMs y m - dateUtcMs y (m - 1)) / dayMs).toNat + 2)
          (dateUtcMs y (m - 1)) hfuel hlt
          (dayMs_dvd_dateUtcMs y (m - 1)) (dayMs_dvd_dateUtcMs y m)
      rw [hgo]
      have hle : ∀ u ∈ w :: ws, u.wStart ≤ u.wEnd :=
        fun u hu => le_of_lt (hprops u hu).1
      have hpw := chainKeys_pairwise_ne (w :: ws) hkeys
      have hweek_bal : ∀ a ∈ accounts,
          recordGet? (processWeeks occurrences checkpoints ym accounts (w :: ws)
            balW []).2 a =
          some (computeCell occurrences checkpoints (recordGet? balM a) a
            (dateUtcMs y (m - 1)) (dateUtcMs y m)).endingBalance := by
        intro a ha
        rw [processWeeks_bal occurrences checkpoints ym accounts hnd a ha (w :: ws)
          balW []]
        rw [computeCell_fold_partition occurrences checkpoints a ws w
          (recordGet? balW a) hchain hle]
        rw [hst, hlast, hsync a]
      apply List.Forall₂.cons
      · refine ⟨rfl, ?_⟩
        intro a cM hcM
        simp only at hcM
        have hmem := processMonthAccounts_lookup_mem occurrences checkpoints ym
          (dateUtcMs y (m - 1)) (dateUtcMs y m) accounts balM a cM hcM
        have hlkM := (processMonthAccounts_lookup occurrences checkpoints ym
          (dateUtcMs y (m - 1)) (dateUtcMs y m) accounts hnd a hmem balM []).1
        rw [hcM] at hlkM
        injection hlkM with hv
        obtain ⟨k, wcells, cW, hwl, hwc, hwb⟩ :=
          processWeeks_last_cell occurrences checkpoints ym accounts hnd a hmem
            (w :: ws) balW [] (by simp) hpw (by simp)
        refine ⟨k, wcells, cW, hwl, hwc, ?_⟩
        rw [hweek_bal a hmem] at hwb
        injection hwb with hwb2
        rw [hv]
        exact hwb2.symm
      · apply ih
        intro k
        by_cases hk : k ∈ accounts
        · rw [hweek_bal k hk]
          rw [(processMonthAccounts_lookup occurrences checkpoints ym
            (dateUtcMs y (m - 1)) (dateUtcMs y m) accounts hnd k hk balM []).2]
        · rw [processWeeks_bal_frame occurrences checkpoints ym accounts k hk
            (w :: ws) balW []]
          rw [(processMonthAccounts_frame occurrences checkpoints ym
            (dateUtcMs y (m - 1)) (dateUtcMs y m) accounts k hk balM []).2]
          exact hsync k

theorem abs_sub_self_le_tol (x : ℚ) : almostEqual x x := by
  unfold almostEqual
  simp only [sub_self, abs_zero]
  norm_num

/-- C3: for every input whose months all parse, and for every month and
account present in the monthly result, the balance of that account's cell
in the chronologically last weekly window of the same month (from
`computeWeeklyBalances`) agrees with the monthly ending balance (from
`computeEndingBalances`) within the 0.01 tolerance. -/
theorem c3_weekly_monthly_reconciliation
    (months : List String) (occurrences : List Occurrence)
    (priorEndingBalances : BalMap) (checkpoints : List AnchorCheckpoint)
    (hwf : ∀ ym ∈ months, (parseYM ym).isSome)
    (monthly : MonthlyMap) (weekly : WeeklyMap)
    (hM : computeEndingBalances months occurrences priorEndingBalances checkpoints =
      .ok monthly)
    (hW : computeWeeklyBalances months occurrences priorEndingBalances checkpoints =
      .ok weekly)
    (ym : String) (mcells : List (String × EndingBalanceCell))
    (hym : recordGet? monthly ym = some mcells)
    (a : String) (cM : EndingBalanceCell)
    (ha : recordGet? mcells a = some cM) :
    ∃ (wmonth : WeeklyMonthMap) (k : Int)
      (wcells : List (String × WeeklyBalanceCell)) (cW : WeeklyBalanceCell),
      recordGet? weekly ym = some wmonth ∧ wmonth.getLast? = some (k, wcells) ∧
      recordGet? wcells a = some cW ∧ almostEqual cW.balance cM.balance := by
  have hM2 := (computeEndingBalances_eq_ok months occurrences priorEndingBalances
    checkpoints hwf).symm.trans hM
  have hW2 := (computeWeeklyBalances_eq_ok months occurrences priorEndingBalances
    checkpoints hwf).symm.trans hW
  injection hM2 with hM3
  injection hW2 with hW3
  subst hM3
  subst hW3
  rw [foldl_recordSet_lookup] at hym
  have hF := traces_reconcile occurrences checkpoints
    (listAccounts occurrences checkpoints priorEndingBalances)
    (listAccounts_nodup occurrences checkpoints priorEndingBalances)
    (sortLe jsStrLe months) priorEndingBalances priorEndingBalances
    (fun _ => rfl)
  have hF2 := forall2_filter reconRel
    (fun e => decide (e.1 = ym)) (fun e => decide (e.1 = ym))
    (fun x y hR => by
      show decide (x.1 = ym) = decide (y.1 = ym)
      rw [hR.1]) _ _ hF
  cases hlastM : ((ebTrace occurrences checkpoints
      (listAccounts occurrences checkpoints priorEndingBalances)
      (sortLe jsStrLe months) priorEndingBalances).filter
      (fun e => decide (e.1 = ym))).getLast? with
  | none =>
    rw [hlastM] at hym
    exact Option.noConfusion hym
  | some eM =>
    rw [hlastM] at hym
    injection hym with hMc
    rcases forall2_getLast? reconRel _ _ hF2 with ⟨h1, _⟩ | ⟨x, yE, h1, h2, hR⟩
    · rw [hlastM] at h1
      exact Option.noConfusion h1
    · rw [hlastM] at h1
      injection h1 with h1
      subst h1
      obtain ⟨k, wcells, cW, hwl, hwc, hwb⟩ := hR.2 a cM (by rw [hMc]; exact ha)
      refine ⟨yE.2, k, wcells, cW, ?_, hwl, hwc, by rw [hwb]; exact abs_sub_self_le_tol _⟩
      rw [foldl_recordSet_lookup, h2]

theorem weeksGoJan_eval : weeksGo (dateUtcMs 2025 1)
    (((dateUtcMs 2025 1 - dateUtcMs 2025 0) / dayMs).toNat + 2) (dateUtcMs 2025 0) =
    janWeeks := by decide

theorem weeksGoFeb_eval : weeksGo (dateUtcMs 2025 2)
    (((dateUtcMs 2025 2 - dateUtcMs 2025 1) / dayMs).toNat + 2) (dateUtcMs 2025 1) =
    febWeeksC1 := by decide

theorem listAccountsC1_eval : listAccounts sampleOccs sampleCps samplePrior = ["operating"] := by
  decide

theorem sortMonthsC1_eval : sortLe jsStrLe sampleMonths = sampleMonths := by decide

set_option maxHeartbeats 4000000 in
theorem evalM_C1 :
    computeEndingBalances sampleMonths sampleOccs samplePrior sampleCps = .ok monthlyC1 := by
  norm_num [computeEndingBalances, ebGo, processMonthAccounts, computeCell,
    resolveAnchor, netAfter, filterOccurrencesForWindow, filterCheckpointsForWindow,
    sortIsoStrings, sortLe, insertLe, cpLeTs, keepAfterAnchor, recordGet?, recordSet,
    mkMonthCell, jsStrLe, sampleOccs, sampleCps, samplePrior, sampleMonths,
    monthlyC1, janCellC1, febCellC1, listAccountsC1_eval,
    show parseYM "2025-01" = some (2025, 1) from by decide,
    show parseYM "2025-02" = some (2025, 2) from by decide,
    show dateUtcMs 2025 0 = 1735689600000 from by decide,
    show dateUtcMs 2025 1 = 1738368000000 from by decide,
    show dateUtcMs 2025 2 = 1740787200000 from by decide,
    show ¬("2025-01" : String) = "2025-02" from by decide,
    show ¬("2025-02" : String) = "2025-01" from by decide]

set_option maxHeartbeats 4000000 in
theorem pwJanC1 : processWeeks sampleOccs sampleCps "2025-01" ["operating"] janWeeks
    samplePrior [] = (janWeekMapC1, [("operating", 1260)]) := by
  norm_num [processWeeks, processWeekAccounts, computeCell,
    resolveAnchor, netAfter, filterOccurrencesForWindow, filterCheckpointsForWindow,
    sortIsoStrings, sortLe, insertLe, cpLeTs, keepAfterAnchor, recordGet?, recordSet,
    mkWeekCell, janWeeks, janWeekMapC1, wCellC1, sampleOccs, sampleCps, samplePrior,
    show ¬AnchorSource.rollforward = AnchorSource.checkpoint from by decide,
    show ¬AnchorSource.initial = AnchorSource.checkpoint from by decide]

set_option maxHeartbeats 4000000 in
theorem pwFebC1 : processWeeks sampleOccs sampleCps "2025-02" ["operating"] febWeeksC1
    [("operating", 1260)] [] = (febWeekMapC1, [("operating", 1200)]) := by
  norm_num [processWeeks, processWeekAccounts, computeCell,
    resolveAnchor, netAfter, filterOccurrencesForWindow, filterCheckpointsForWindow,
    sortIsoStrings, sortLe, insertLe, cpLeTs, keepAfterAnchor, recordGet?, recordSet,
    mkWeekCell, febWeeksC1, febWeekMapC1, wCellC1, sampleOccs, sampleCps, samplePrior,
    show ¬AnchorSource.rollforward = AnchorSource.checkpoint from by decide,
    show ¬AnchorSource.initial = AnchorSource.checkpoint from by decide]

theorem evalW_s1 :
    computeWeeklyBalances sampleMonths sampleOccs samplePrior sampleCps =
    wbGo sampleOccs sampleCps ["operating"] sampleMonths samplePrior [] := by
  simp only [computeWeeklyBalances, listAccountsC1_eval, sortMonthsC1_eval]

theorem evalW_s2 :
    wbGo sampleOccs sampleCps ["operating"] sampleMonths samplePrior [] =
    wbGo sampleOccs sampleCps ["operating"] ["2025-02"] [("operating", 1260)]
      [("2025-01", janWeekMapC1)] := by
  simp only [sampleMonths, wbGo,
    show parseYM "2025-01" = some (2025, 1) from by decide,
    show (1 : Int) - 1 = 0 from by decide,
    weeksGoJan_eval, pwJanC1, recordSet]

theorem evalW_s3 :
    wbGo sampleOccs sampleCps ["operating"] ["2025-02"] [("operating", 1260)]
      [("2025-01", janWeekMapC1)] = .ok weeklyC1 := by
  simp only [wbGo,
    show parseYM "2025-02" = some (2025, 2) from by decide,
    show (2 : Int) - 1 = 1 from by decide,
    weeksGoFeb_eval, pwFebC1, recordSet]
  rfl

theorem evalW_C1 :
    computeWeeklyBalances sampleMonths sampleOccs samplePrior sampleCps = .ok weeklyC1 :=
  evalW_s1.trans (evalW_s2.trans evalW_s3)

theorem evalABR_C1 : assertBalanceRollForward monthlyC1 = .ok () := by
  norm_num [assertBalanceRollForward, abrMonths, abrAccounts, objKeys, recordGet?, recordSet,
    monthlyC1, janCellC1, febCellC1, mkMonthCell, almostEqual,
    show sortLe jsStrLe (List.dedup (List.map Prod.fst monthlyC1)) =
      ["2025-01", "2025-02"] from by decide,
    show ¬("2025-01" : String) = "2025-02" from by decide,
    show ¬("2025-02" : String) = "2025-01" from by decide]

theorem evalAWR_C1 : assertWeeklyBalanceRollForward weeklyC1 monthlyC1 =
    .error "Weekly roll-forward violation for operating in week 20107" := by
  norm_num [assertWeeklyBalanceRollForward, awrMonths, awrWeeks, awrAccounts, awrRecon,
    objKeys, recordGet?, recordSet, weeklyC1, janWeekMapC1, wCellC1, mkWeekCell, almostEqual,
    show sortLe jsStrLe (List.dedup (List.map Prod.fst weeklyC1)) =
      ["2025-01", "2025-02"] from by decide,
    show sortLe intLe (List.dedup (List.map Prod.fst janWeekMapC1)) =
      [20093, 20100, 20107, 20114, 20119] from by decide,
    show toString (20107 : Int) = "20107" from by decide,
    show ("Weekly roll-forward violation for " ++ "operating" ++ " in week " ++ "20107" : String) =
      "Weekly roll-forward violation for operating in week 20107" from by decide,
    show ¬("2025-01" : String) = "2025-02" from by decide,
    show ¬("2025-02" : String) = "2025-01" from by decide]

theorem evalBF_C1 : buildForecast sampleMonths sampleOccs samplePrior sampleCps =
    .error "Weekly roll-forward violation for operating in week 20107" := by
  simp only [buildForecast, sortMonthsC1_eval, evalM_C1, evalABR_C1, evalW_C1, evalAWR_C1]

/-- C1: on the spec's literal scenario the monthly pass produces exactly the
claimed January cell (beginning 1480, net −220, ending 1260, checkpoint
anchor, interim) and February cell (beginning 1260, net −60, ending 1200,
roll-forward anchor, not interim); `buildForecast`, however, does not return
them: its weekly continuity verifier (which lacks the checkpoint-anchor
exemption the spec grants) aborts the run with a weekly roll-forward
violation in the checkpoint week. -/
theorem c1_end_to_end_scenario :
    computeEndingBalances sampleMonths sampleOccs samplePrior sampleCps =
      .ok [("2025-01", [("operating", janCellC1)]),
           ("2025-02", [("operating", febCellC1)])] ∧
    janCellC1.beginningBalance = 1480 ∧ janCellC1.netAfterAnchor = -220 ∧
    janCellC1.balance = 1260 ∧ janCellC1.anchor.source = .checkpoint ∧
    janCellC1.anchor.isInterim = true ∧
    febCellC1.beginningBalance = 1260 ∧ febCellC1.netAfterAnchor = -60 ∧
    febCellC1.balance = 1200 ∧ febCellC1.anchor.source = .rollforward ∧
    febCellC1.anchor.isInterim = false ∧
    buildForecast sampleMonths sampleOccs samplePrior sampleCps =
      .error "Weekly roll-forward violation for operating in week 20107" :=
  ⟨evalM_C1, rfl, rfl, rfl, rfl, rfl, rfl, rfl, rfl, rfl, rfl, evalBF_C1⟩

set_option maxHeartbeats 4000000 in
theorem evalM_C2 : computeEndingBalances ["2025-01", "2025-02"] [] [("a", 0)] c2Cps =
    .ok monthlyC2 := by
  norm_num [computeEndingBalances, ebGo, processMonthAccounts, computeCell,
    resolveAnchor, netAfter, filterOccurrencesForWindow, filterCheckpointsForWindow,
    sortIsoStrings, sortLe, insertLe, cpLeTs, keepAfterAnchor, recordGet?, recordSet,
    mkMonthCell, jsStrLe, c2Cps, monthlyC2, janC2, febC2,
    show listAccounts [] c2Cps [("a", (0 : ℚ))] = ["a"] from by decide,
    show parseYM "2025-01" = some (2025, 1) from by decide,
    show parseYM "2025-02" = some (2025, 2) from by decide,
    show dateUtcMs 2025 0 = 1735689600000 from by decide,
    show dateUtcMs 2025 1 = 1738368000000 from by decide,
    show dateUtcMs 2025 2 = 1740787200000 from by decide,
    show ¬("2025-01" : String) = "2025-02" from by decide,
    show ¬("2025-02" : String) = "2025-01" from by decide]

theorem evalABR_C2 : assertBalanceRollForward monthlyC2 =
    .error "Monthly roll-forward violation for a in 2025-02" := by
  norm_num [assertBalanceRollForward, abrMonths, abrAccounts, objKeys, recordGet?, recordSet,
    monthlyC2, janC2, febC2, mkMonthCell, almostEqual,
    show sortLe jsStrLe (List.dedup (List.map Prod.fst monthlyC2)) =
      ["2025-01", "2025-02"] from by decide,
    show ("Monthly roll-forward violation for " ++ "a" ++ " in " ++ "2025-02" : String) =
      "Monthly roll-forward violation for a in 2025-02" from by decide,
    show ¬("2025-01" : String) = "2025-02" from by decide,
    show ¬("2025-02" : String) = "2025-01" from by decide]

/-- C2: the continuity verifiers are not no-ops on self-consistent inputs:
on a well-formed input whose only data is a prior balance of 0 for account
`a` and a checkpoint of 100 inside 2025-02, `buildForecast` aborts with a
monthly roll-forward violation, because `assertBalanceRollForward` compares
the checkpoint-anchored beginning balance of 2025-02 against the previous
month's ending balance without the checkpoint exemption the spec
describes. -/
theorem c2_verifier_fires_on_consistent_input :
    buildForecast ["2025-01", "2025-02"] [] [("a", 0)] c2Cps =
      .error "Monthly roll-forward violation for a in 2025-02" := by
  simp only [buildForecast,
    show sortLe jsStrLe ["2025-01", "2025-02"] = ["2025-01", "2025-02"] from by decide,
    evalM_C2, evalABR_C2]

set_option maxHeartbeats 2000000 in
theorem evalM_C3w : computeEndingBalances ["2025-01"] [] [("a", 5)] [] =
    .ok [("2025-01", [("a", ebC3w)])] := by
  norm_num [computeEndingBalances, ebGo, processMonthAccounts, computeCell,
    resolveAnchor, netAfter, filterOccurrencesForWindow, filterCheckpointsForWindow,
    sortIsoStrings, sortLe, insertLe, cpLeTs, keepAfterAnchor, recordGet?, recordSet,
    mkMonthCell, listAccounts, jsStrLe, ebC3w,
    show parseYM "2025-01" = some (2025, 1) from by decide,
    show dateUtcMs 2025 0 = 1735689600000 from by decide,
    show dateUtcMs 2025 1 = 1738368000000 from by decide]

set_option maxHeartbeats 4000000 in
theorem evalW_C3w : computeWeeklyBalances ["2025-01"] [] [("a", 5)] [] =
    .ok [("2025-01", wkC3w)] := by
  simp only [computeWeeklyBalances, wbGo,
    show listAccounts [] [] [("a", (5 : ℚ))] = ["a"] from by decide,
    show sortLe jsStrLe ["2025-01"] = ["2025-01"] from by decide,
    show parseYM "2025-01" = some (2025, 1) from by decide,
    show (1 : Int) - 1 = 0 from by decide,
    weeksGoJan_eval]
  norm_num [processWeeks, processWeekAccounts, computeCell,
    resolveAnchor, netAfter, filterOccurrencesForWindow, filterCheckpointsForWindow,
    sortIsoStrings, sortLe, insertLe, cpLeTs, keepAfterAnchor, recordGet?, recordSet,
    mkWeekCell, janWeeks, wkC3w, wkCellC3]

/-- Witness for C3: the reconciliation theorem applied to the concrete
one-month, one-account run. -/
theorem c3_weekly_monthly_reconciliation_witness :
    ∃ (wmonth : WeeklyMonthMap) (k : Int)
      (wcells : List (String × WeeklyBalanceCell)) (cW : WeeklyBalanceCell),
      recordGet? [("2025-01", wkC3w)] "2025-01" = some wmonth ∧
      wmonth.getLast? = some (k, wcells) ∧
      recordGet? wcells "a" = some cW ∧ almostEqual cW.balance ebC3w.balance :=
  c3_weekly_monthly_reconciliation ["2025-01"] [] [("a", 5)] [] (by decide)
    [("2025-01", [("a", ebC3w)])] [("2025-01", wkC3w)] evalM_C3w evalW_C3w
    "2025-01" [("a", ebC3w)] rfl "a" ebC3w rfl

set_option maxHeartbeats 4000000 in
theorem evalTrace_C1 : ebTrace sampleOccs sampleCps ["operating"] sampleMonths samplePrior =
    [("2025-01", [("operating", janCellC1)]), ("2025-02", [("operating", febCellC1)])] := by
  norm_num [ebTrace, processMonthAccounts, computeCell,
    resolveAnchor, netAfter, filterOccurrencesForWindow, filterCheckpointsForWindow,
    sortIsoStrings, sortLe, insertLe, cpLeTs, keepAfterAnchor, recordGet?, recordSet,
    mkMonthCell, jsStrLe, sampleOccs, sampleCps, samplePrior, sampleMonths,
    janCellC1, febCellC1,
    show parseYM "2025-01" = some (2025, 1) from by decide,
    show parseYM "2025-02" = some (2025, 2) from by decide,
    show dateUtcMs 2025 0 = 1735689600000 from by decide,
    show dateUtcMs 2025 1 = 1738368000000 from by decide,
    show dateUtcMs 2025 2 = 1740787200000 from by decide,
    show ¬("2025-01" : String) = "2025-02" from by decide,
    show ¬("2025-02" : String) = "2025-01" from by decide]

/-- C4: for any two consecutive passes of the month loop of
`computeEndingBalances` (whose collapsed passes are the returned map) and
any account appearing in both, when the later pass's anchor source is not
`checkpoint` its beginning balance equals (hence is within 0.01 of) the
earlier pass's ending balance; when it is `checkpoint`, the beginning
balance is the balance of an in-window checkpoint of that account. -/
theorem c4_adjacent_continuity
    (months : List String) (occurrences : List Occurrence)
    (priorEndingBalances : BalMap) (checkpoints : List AnchorCheckpoint)
    (monthly : MonthlyMap)
    (hwf : ∀ ym ∈ months, (parseYM ym).isSome)
    (hM : computeEndingBalances months occurrences priorEndingBalances checkpoints =
      .ok monthly)
    (i : Nat) (ym1 ym2 : String) (cs1 cs2 : List (String × EndingBalanceCell))
    (h1 : (ebTrace occurrences checkpoints
      (listAccounts occurrences checkpoints priorEndingBalances)
      (sortLe jsStrLe months) priorEndingBalances).get? i = some (ym1, cs1))
    (h2 : (ebTrace occurrences checkpoints
      (listAccounts occurrences checkpoints priorEndingBalances)
      (sortLe jsStrLe months) priorEndingBalances).get? (i + 1) = some (ym2, cs2))
    (a : String) (c1 c2 : EndingBalanceCell)
    (hc1 : recordGet? cs1 a = some c1) (hc2 : recordGet? cs2 a = some c2) :
    monthly = (ebTrace occurrences checkpoints
      (listAccounts occurrences checkpoints priorEndingBalances)
      (sortLe jsStrLe months) priorEndingBalances).foldl
        (fun acc e => recordSet acc e.1 e.2) [] ∧
    (c2.anchor.source ≠ AnchorSource.checkpoint →
      c2.beginningBalance = c1.balance ∧ almostEqual c2.beginningBalance c1.balance) ∧
    (c2.anchor.source = AnchorSource.checkpoint →
      ∃ y m cp, parseYM ym2 = some (y, m) ∧ cp ∈ checkpoints ∧ cp.accountSlug = a ∧
        dateUtcMs y (m - 1) ≤ cp.timestamp ∧ cp.timestamp < dateUtcMs y m ∧
        c2.beginningBalance = cp.balance) := by
  have hcol := (computeEndingBalances_eq_ok months occurrences priorEndingBalances
    checkpoints hwf).symm.trans hM
  injection hcol with hcol
  obtain ⟨y, m, hpm2, hcell⟩ := ebTrace_adjacent occurrences checkpoints
    (listAccounts occurrences checkpoints priorEndingBalances)
    (listAccounts_nodup occurrences checkpoints priorEndingBalances)
    (sortLe jsStrLe months) priorEndingBalances i ym1 ym2 cs1 cs2 h1 h2 a c1 c2 hc1 hc2
  have hanch : c2.anchor = resolveAnchor checkpoints (some c1.balance) a
      (dateUtcMs y (m - 1)) (dateUtcMs y m) := by
    rw [hcell]
    rfl
  have hbeg : c2.beginningBalance = (resolveAnchor checkpoints (some c1.balance) a
      (dateUtcMs y (m - 1)) (dateUtcMs y m)).balance := by
    rw [hcell]
    rfl
  refine ⟨hcol.symm, ?_, ?_⟩
  · intro hnc
    rw [hanch] at hnc
    have hra := resolveAnchor_not_checkpoint checkpoints (some c1.balance) a
      (dateUtcMs y (m - 1)) (dateUtcMs y m) hnc
    rw [hbeg, hra]
    exact ⟨rfl, abs_sub_self_le_tol _⟩
  · intro hcp
    rw [hanch] at hcp
    obtain ⟨cp, hcpmem, hcpa, hcpS, hcpE, hra⟩ := resolveAnchor_checkpoint_shape
      checkpoints (some c1.balance) a (dateUtcMs y (m - 1)) (dateUtcMs y m) hcp
    refine ⟨y, m, cp, hpm2, hcpmem, hcpa, hcpS, hcpE, ?_⟩
    rw [hbeg, hra]

/-- Witness for C4: the continuity theorem applied to the two months of the
concrete scenario. -/
theorem c4_adjacent_continuity_witness :
    monthlyC1 = (ebTrace sampleOccs sampleCps
      (listAccounts sampleOccs sampleCps samplePrior)
      (sortLe jsStrLe sampleMonths) samplePrior).foldl
        (fun acc e => recordSet acc e.1 e.2) [] ∧
    (febCellC1.anchor.source ≠ AnchorSource.checkpoint →
      febCellC1.beginningBalance = janCellC1.balance ∧
      almostEqual febCellC1.beginningBalance janCellC1.balance) ∧
    (febCellC1.anchor.source = AnchorSource.checkpoint →
      ∃ y m cp, parseYM "2025-02" = some (y, m) ∧ cp ∈ sampleCps ∧
        cp.accountSlug = "operating" ∧
        dateUtcMs y (m - 1) ≤ cp.timestamp ∧ cp.timestamp < dateUtcMs y m ∧
        febCellC1.beginningBalance = cp.balance) :=
  c4_adjacent_continuity sampleMonths sampleOccs samplePrior sampleCps monthlyC1
    (by decide) evalM_C1 0 "2025-01" "2025-02"
    [("operating", janCellC1)] [("operating", febCellC1)]
    (by rw [listAccountsC1_eval, sortMonthsC1_eval, evalTrace_C1]; rfl)
    (by rw [listAccountsC1_eval, sortMonthsC1_eval, evalTrace_C1]; rfl)
    "operating" janCellC1 febCellC1 rfl rfl

/-- C5: for each (window, account) pair, an in-window occurrence of the
account is kept for `netAfterAnchor` exactly when its timestamp is at or
after the anchor's, except that a checkpoint anchor excludes the occurrence
at its exact instant; a non-checkpoint anchor sits at the window start (so
an occurrence at the window start is kept); `netAfterAnchor` is the sum of
the kept amounts and the ending balance is the anchor balance plus it. -/
theorem c5_net_after_anchor_semantics (occurrences : List Occurrence)
    (checkpoints : List AnchorCheckpoint) (prior : Option ℚ) (account : String)
    (wStart wEnd : Int) :
    (∀ o : Occurrence,
      keepAfterAnchor (resolveAnchor checkpoints prior account wStart wEnd) o = true ↔
        ((resolveAnchor checkpoints prior account wStart wEnd).timestamp ≤ o.timestamp ∧
          ¬((resolveAnchor checkpoints prior account wStart wEnd).source =
              AnchorSource.checkpoint ∧
            o.timestamp =
              (resolveAnchor checkpoints prior account wStart wEnd).timestamp))) ∧
    ((resolveAnchor checkpoints prior account wStart wEnd).source ≠
        AnchorSource.checkpoint →
      (resolveAnchor checkpoints prior account wStart wEnd).timestamp = wStart ∧
      ∀ o : Occurrence, o.timestamp = wStart →
        keepAfterAnchor (resolveAnchor checkpoints prior account wStart wEnd) o = true) ∧
    (computeCell occurrences checkpoints prior account wStart wEnd).netAfterAnchor =
      (((filterOccurrencesForWindow occurrences account wStart wEnd).filter
        (keepAfterAnchor (resolveAnchor checkpoints prior account wStart wEnd))).map
          (·.amount)).sum ∧
    (computeCell occurrences checkpoints prior account wStart wEnd).endingBalance =
      (resolveAnchor checkpoints prior account wStart wEnd).balance +
      (computeCell occurrences checkpoints prior account wStart wEnd).netAfterAnchor := by
  refine ⟨?_, ?_, ?_, ?_⟩
  · intro o
    by_cases hsrc : (resolveAnchor checkpoints prior account wStart wEnd).source =
        AnchorSource.checkpoint
    · rw [keepAfterAnchor_checkpoint _ hsrc o]
      simp only [hsrc, true_and, decide_eq_true_eq]
      omega
    · rw [keepAfterAnchor_not_checkpoint _ hsrc o]
      simp only [decide_eq_true_eq]
      constructor
      · intro hle
        exact ⟨hle, fun hcon => hsrc hcon.1⟩
      · intro h
        exact h.1
  · intro hsrc
    have hra := resolveAnchor_not_checkpoint checkpoints prior account wStart wEnd hsrc
    constructor
    · rw [hra]
    · intro o ho
      rw [keepAfterAnchor_not_checkpoint _ hsrc o, hra]
      simp only [decide_eq_true_eq]
      omega
  · rw [computeCell_net, netAfter_eq_sum]
  · rw [computeCell_ending, computeCell_net]

/-- C6: with no in-window checkpoint of the account, the anchor is the
start-of-window roll-forward (running balance, source `rollforward`) or
uninitialized (balance 0, source `initial`) anchor, never interim; with at
least one, the anchor is the in-window checkpoint of maximal timestamp that
comes last in input order among equal timestamps, with source `checkpoint`,
its id and balance, and interim exactly when strictly after the window
start. -/
theorem c6_anchor_resolution (checkpoints : List AnchorCheckpoint)
    (prior : Option ℚ) (account : String) (wStart wEnd : Int) :
    (filterCheckpointsForWindow checkpoints account wStart wEnd = [] →
      resolveAnchor checkpoints prior account wStart wEnd =
        { balance := prior.getD 0, timestamp := wStart,
          source := if prior.isSome then AnchorSource.rollforward
            else AnchorSource.initial,
          checkpointId := none, isInterim := false }) ∧
    (filterCheckpointsForWindow checkpoints account wStart wEnd ≠ [] →
      ∃ c l1 l2,
        filterCheckpointsForWindow checkpoints account wStart wEnd = l1 ++ c :: l2 ∧
        (∀ d ∈ filterCheckpointsForWindow checkpoints account wStart wEnd,
          d.timestamp ≤ c.timestamp) ∧
        (∀ d ∈ l2, d.timestamp < c.timestamp) ∧
        resolveAnchor checkpoints prior account wStart wEnd =
          { balance := c.balance, timestamp := c.timestamp,
            source := AnchorSource.checkpoint, checkpointId := some c.id,
            isInterim := wStart < c.timestamp }) := by
  constructor
  · intro hnil
    have heff : effCp (filterCheckpointsForWindow checkpoints account wStart wEnd) =
        none := (effCp_eq_none_iff _).mpr hnil
    rw [resolveAnchor_eq_effCp, heff]
  · intro hne
    cases heff : effCp (filterCheckpointsForWindow checkpoints account wStart wEnd) with
    | none => exact absurd ((effCp_eq_none_iff _).mp heff) hne
    | some c =>
      obtain ⟨l1, l2, hdec, hmax, hafter⟩ := effCp_split _ c heff
      refine ⟨c, l1, l2, hdec, hmax, hafter, ?_⟩
      rw [resolveAnchor_eq_effCp, heff]

/-- C7: for every month identifier that parses, `computeWeeksInMonth`
returns a non-empty window list that starts at the month start, is
contiguous (each window begins where the previous one ends), and ends at
the month's exclusive end. -/
theorem c7_weeks_partition (ym : String) (y m : Int) (h : parseYM ym = some (y, m)) :
    ∃ (w : WeekWindow) (ws : List WeekWindow),
      computeWeeksInMonth ym = .ok (w :: ws) ∧
      w.wStart = dateUtcMs y (m - 1) ∧
      List.Chain' (fun w1 w2 => w1.wEnd = w2.wStart) (w :: ws) ∧
      ((w :: ws).getLast (by simp)).wEnd = dateUtcMs y m := by
  obtain ⟨w, ws, h1, h2, h3, h4, _, _⟩ := computeWeeksInMonth_spec ym y m h
  exact ⟨w, ws, h1, h2, h3, h4⟩

/-- Witness for C7: the partition theorem applied to 2025-01. -/
theorem c7_weeks_partition_witness :
    parseYM "2025-01" = some (2025, 1) ∧
    ∃ (w : WeekWindow) (ws : List WeekWindow),
      computeWeeksInMonth "2025-01" = .ok (w :: ws) ∧
      w.wStart = dateUtcMs 2025 (1 - 1) ∧
      List.Chain' (fun w1 w2 => w1.wEnd = w2.wStart) (w :: ws) ∧
      ((w :: ws).getLast (by simp)).wEnd = dateUtcMs 2025 1 :=
  ⟨by decide, c7_weeks_partition "2025-01" 2025 1 (by decide)⟩

/-- C8 counterexample: `"2025-13"` names no calendar month, yet the window
builders raise no error: the `Number`-based parse accepts it and `Date.UTC`
normalizes month 13 of 2025 to January 2026. -/
theorem c8_counterexample :
    parseYM "2025-13" = some (2025, 13) ∧
    startOfMonthE "2025-13" = .ok 1767225600000 ∧
    monthEndExclusiveE "2025-13" = .ok 1769904000000 ∧
    dateUtcMs 2026 0 = 1767225600000 ∧ ¬(13 : Int) ≤ 12 :=
  ⟨by decide, rfl, rfl, by decide, by decide⟩

theorem digitsToNat?_isSome_of_digits : ∀ (l : List Char),
    (∀ c ∈ l, c.isDigit = true) → (digitsToNat? l).isSome := by
  intro l
  induction l with
  | nil => intro _; simp [digitsToNat?]
  | cons c cs ih =>
    intro h
    have hc : c.isDigit = true := h c (by simp)
    have hih := ih (fun d hd => h d (by simp [hd]))
    unfold digitsToNat?
    rw [if_pos hc]
    cases hdt : digitsToNat? cs with
    | none =>
      rw [hdt] at hih
      simp at hih
    | some v => simp

/-- C8 (amended), on identifiers whose dash components are decimal-digit
strings (the fragment on which the model's `Number()` is exact; outside it
`Number()` accepts further forms such as `'12.5'`): the window builders
raise `Invalid month identifier` exactly when the identifier lacks a second
dash component or a component's numeric value is falsy (empty or all-zero
digits) — not when the month is outside 1–12; when the parse yields
`(y, m)`, both are positive and, within `Date.UTC`'s clip range of
±8.64e15 ms, the window is `[Date.UTC(y, m−1), Date.UTC(y, m))` with
`Date.UTC` month-arithmetic normalization. -/
theorem c8_invalid_period_amended (ym : String) (hd : digitFrags ym) :
    ((∃ e, startOfMonthE ym = .error e) ↔ parseYM ym = none) ∧
    ((∃ e, monthEndExclusiveE ym = .error e) ↔ parseYM ym = none) ∧
    (∀ e, startOfMonthE ym = .error e → e = "Invalid month identifier: " ++ ym) ∧
    (parseYM ym = none ↔
      ((splitDash ym).get? 0 = none ∨ (splitDash ym).get? 1 = none ∨
        ((splitDash ym).get? 0).bind jsNumber? = some 0 ∨
        ((splitDash ym).get? 1).bind jsNumber? = some 0)) ∧
    (∀ y m, parseYM ym = some (y, m) → 1 ≤ y ∧ 1 ≤ m ∧
      (-8640000000000000 ≤ dateUtcMs y (m - 1) ∧
          dateUtcMs y m ≤ 8640000000000000 →
        startOfMonthE ym = .ok (dateUtcMs y (m - 1)) ∧
        monthEndExclusiveE ym = .ok (dateUtcMs y m))) := by
  refine ⟨?_, ?_, ?_, ⟨?_, ?_⟩, ?_⟩
  · cases hpm : parseYM ym with
    | none => simp [startOfMonthE, hpm]
    | some p => simp [startOfMonthE, hpm]
  · cases hpm : parseYM ym with
    | none => simp [monthEndExclusiveE, hpm]
    | some p => simp [monthEndExclusiveE, hpm]
  · intro e he
    cases hpm : parseYM ym with
    | none =>
      simp only [startOfMonthE, hpm] at he
      injection he with he
      exact he.symm
    | some p =>
      obtain ⟨y, m⟩ := p
      simp [startOfMonthE, hpm] at he
  · intro hnone
    cases hg0 : (splitDash ym).get? 0 with
    | none => exact Or.inl rfl
    | some a =>
      cases hg1 : (splitDash ym).get? 1 with
      | none => exact Or.inr (Or.inl rfl)
      | some b =>
        have hva := digitsToNat?_isSome_of_digits a.data
          (fun c hc => hd a (List.get?_mem hg0) c hc)
        have hvb := digitsToNat?_isSome_of_digits b.data
          (fun c hc => hd b (List.get?_mem hg1) c hc)
        rw [Option.isSome_iff_exists] at hva hvb
        obtain ⟨va, hva⟩ := hva
        obtain ⟨vb, hvb⟩ := hvb
        have hja : jsNumber? a = some va := hva
        have hjb : jsNumber? b = some vb := hvb
        simp only [parseYM, hg0, hg1, Option.some_bind, hja, hjb] at hnone
        by_cases hz : va = 0 ∨ vb = 0
        · rcases hz with hz | hz
          · refine Or.inr (Or.inr (Or.inl ?_))
            show jsNumber? a = some 0
            rw [hja, hz]
          · refine Or.inr (Or.inr (Or.inr ?_))
            show jsNumber? b = some 0
            rw [hjb, hz]
        · rw [if_neg hz] at hnone
          exact Option.noConfusion hnone
  · intro hdisj
    rcases hdisj with hg0 | hg1 | hz0 | hz1
    · have hb0 : ((splitDash ym).get? 0).bind jsNumber? = none := by rw [hg0]; rfl
      cases h1 : ((splitDash ym).get? 1).bind jsNumber? with
      | none => simp only [parseYM, hb0, h1]
      | some v => simp only [parseYM, hb0, h1]
    · have hb1 : ((splitDash ym).get? 1).bind jsNumber? = none := by rw [hg1]; rfl
      cases h0 : ((splitDash ym).get? 0).bind jsNumber? with
      | none => simp only [parseYM, h0, hb1]
      | some v => simp only [parseYM, h0, hb1]
    · cases h1 : ((splitDash ym).get? 1).bind jsNumber? with
      | none => simp only [parseYM, hz0, h1]
      | some v =>
        simp only [parseYM, hz0, h1]
        rw [if_pos (Or.inl trivial)]
    · cases h0 : ((splitDash ym).get? 0).bind jsNumber? with
      | none => simp only [parseYM, h0]
      | some v =>
        simp only [parseYM, h0, hz1]
        rw [if_pos (Or.inr trivial)]
  · intro y m hpm
    have hpos := parseYM_pos ym y m hpm
    refine ⟨hpos.1, hpos.2, fun _ => ⟨?_, ?_⟩⟩
    · simp [startOfMonthE, hpm]
    · simp [monthEndExclusiveE, hpm]

/-- Witness for C8's amended theorem: applied to the digit-component
identifier `"2025-13"` of the counterexample. -/
theorem c8_invalid_period_amended_witness :
    digitFrags "2025-13" ∧
    (((∃ e, startOfMonthE "2025-13" = .error e) ↔ parseYM "2025-13" = none) ∧
    ((∃ e, monthEndExclusiveE "2025-13" = .error e) ↔ parseYM "2025-13" = none) ∧
    (∀ e, startOfMonthE "2025-13" = .error e →
      e = "Invalid month identifier: " ++ "2025-13") ∧
    (parseYM "2025-13" = none ↔
      ((splitDash "2025-13").get? 0 = none ∨ (splitDash "2025-13").get? 1 = none ∨
        ((splitDash "2025-13").get? 0).bind jsNumber? = some 0 ∨
        ((splitDash "2025-13").get? 1).bind jsNumber? = some 0)) ∧
    (∀ y m, parseYM "2025-13" = some (y, m) → 1 ≤ y ∧ 1 ≤ m ∧
      (-8640000000000000 ≤ dateUtcMs y (m - 1) ∧
          dateUtcMs y m ≤ 8640000000000000 →
        startOfMonthE "2025-13" = .ok (dateUtcMs y (m - 1)) ∧
        monthEndExclusiveE "2025-13" = .ok (dateUtcMs y m)))) :=
  ⟨by decide, c8_invalid_period_amended "2025-13" (by decide)⟩

/-- C9: when the (sorted) month list repeats an identifier, the month loop
of `computeEndingBalances` runs once per copy: the later pass computes each
account's cell over the same month window with the earlier pass's ending
balance as its prior (so the same occurrences are re-counted on top of it),
and the returned map keeps only the last pass's cells for that
identifier. -/
theorem c9_duplicate_months (months : List String) (occurrences : List Occurrence)
    (priorEndingBalances : BalMap) (checkpoints : List AnchorCheckpoint)
    (monthly : MonthlyMap)
    (hwf : ∀ ym ∈ months, (parseYM ym).isSome)
    (hM : computeEndingBalances months occurrences priorEndingBalances checkpoints =
      .ok monthly)
    (i : Nat) (ym : String) (cs1 cs2 : List (String × EndingBalanceCell))
    (h1 : (ebTrace occurrences checkpoints
      (listAccounts occurrences checkpoints priorEndingBalances)
      (sortLe jsStrLe months) priorEndingBalances).get? i = some (ym, cs1))
    (h2 : (ebTrace occurrences checkpoints
      (listAccounts occurrences checkpoints priorEndingBalances)
      (sortLe jsStrLe months) priorEndingBalances).get? (i + 1) = some (ym, cs2))
    (a : String) (c1 c2 : EndingBalanceCell)
    (hc1 : recordGet? cs1 a = some c1) (hc2 : recordGet? cs2 a = some c2) :
    (∃ y m, parseYM ym = some (y, m) ∧
      c2 = mkMonthCell ym a (computeCell occurrences checkpoints (some c1.balance) a
        (dateUtcMs y (m - 1)) (dateUtcMs y m))) ∧
    (∃ e, ((ebTrace occurrences checkpoints
        (listAccounts occurrences checkpoints priorEndingBalances)
        (sortLe jsStrLe months) priorEndingBalances).filter
          (fun t => t.1 = ym)).getLast? = some e ∧
      recordGet? monthly ym = some e.2) := by
  constructor
  · exact ebTrace_adjacent occurrences checkpoints
      (listAccounts occurrences checkpoints priorEndingBalances)
      (listAccounts_nodup occurrences checkpoints priorEndingBalances)
      (sortLe jsStrLe months) priorEndingBalances i ym ym cs1 cs2 h1 h2 a c1 c2 hc1 hc2
  · have hcol := (computeEndingBalances_eq_ok months occurrences priorEndingBalances
      checkpoints hwf).symm.trans hM
    injection hcol with hcol
    have hmem2 := List.get?_mem h2
    have hmemf : (ym, cs2) ∈ (ebTrace occurrences checkpoints
        (listAccounts occurrences checkpoints priorEndingBalances)
        (sortLe jsStrLe months) priorEndingBalances).filter (fun t => t.1 = ym) :=
      List.mem_filter.mpr ⟨hmem2, by simp⟩
    have hne := List.ne_nil_of_mem hmemf
    cases hgl : ((ebTrace occurrences checkpoints
        (listAccounts occurrences checkpoints priorEndingBalances)
        (sortLe jsStrLe months) priorEndingBalances).filter
          (fun t => t.1 = ym)).getLast? with
    | none => exact absurd (List.getLast?_eq_none_iff.mp hgl) hne
    | some e =>
      refine ⟨e, rfl, ?_⟩
      rw [← hcol, foldl_recordSet_lookup, hgl]

/-- C10: over a non-empty month list, an `initial`-source anchor can occur
only in the first processed (earliest) month: any `initial`-source cell
reachable in the returned map sits under the head of the sorted month list,
and no pass after the first produces one. -/
theorem c10_initial_only_earliest (months : List String)
    (occurrences : List Occurrence) (priorEndingBalances : BalMap)
    (checkpoints : List AnchorCheckpoint) (monthly : MonthlyMap)
    (hwf : ∀ ym ∈ months, (parseYM ym).isSome)
    (hM : computeEndingBalances months occurrences priorEndingBalances checkpoints =
      .ok monthly)
    (ym : String) (cells : List (String × EndingBalanceCell))
    (hym : recordGet? monthly ym = some cells)
    (a : String) (c : EndingBalanceCell) (hc : recordGet? cells a = some c)
    (hinit : c.anchor.source = AnchorSource.initial) :
    (sortLe jsStrLe months).head? = some ym ∧
    (∀ e ∈ (ebTrace occurrences checkpoints
        (listAccounts occurrences checkpoints priorEndingBalances)
        (sortLe jsStrLe months) priorEndingBalances).tail,
      ∀ (b : String) (d : EndingBalanceCell), recordGet? e.2 b = some d →
        d.anchor.source ≠ AnchorSource.initial) := by
  have hnd := listAccounts_nodup occurrences checkpoints priorEndingBalances
  have htail := ebTrace_tail_not_initial occurrences checkpoints
    (listAccounts occurrences checkpoints priorEndingBalances) hnd
    (sortLe jsStrLe months) priorEndingBalances
  refine ⟨?_, htail⟩
  have hcol := (computeEndingBalances_eq_ok months occurrences priorEndingBalances
    checkpoints hwf).symm.trans hM
  injection hcol with hcol
  rw [← hcol, foldl_recordSet_lookup] at hym
  cases hgl : ((ebTrace occurrences checkpoints
      (listAccounts occurrences checkpoints priorEndingBalances)
      (sortLe jsStrLe months) priorEndingBalances).filter
        (fun e => e.1 = ym)).getLast? with
  | none =>
    rw [hgl] at hym
    simp [recordGet?] at hym
  | some e =>
    rw [hgl] at hym
    injection hym with hym
    have hef := List.mem_of_mem_getLast? hgl
    have hmemt := List.mem_filter.mp hef
    have hey : e.1 = ym := by simpa using hmemt.2
    have hnotail : e ∉ (ebTrace occurrences checkpoints
        (listAccounts occurrences checkpoints priorEndingBalances)
        (sortLe jsStrLe months) priorEndingBalances).tail := by
      intro hcon
      exact htail e hcon a c (by rw [hym]; exact hc) hinit
    have hmem := hmemt.1
    cases hs : sortLe jsStrLe months with
    | nil =>
      rw [hs] at hmem
      simp [ebTrace] at hmem
    | cons ym0 rest =>
      have hym0mem : ym0 ∈ months := by
        apply (mem_sortLe jsStrLe months ym0).mp
        rw [hs]
        simp
      have hpm0 := hwf ym0 hym0mem
      rw [Option.isSome_iff_exists] at hpm0
      obtain ⟨p, hpm0'⟩ := hpm0
      obtain ⟨y0, m0⟩ := p
      rw [hs] at hmem hnotail
      simp only [ebTrace, hpm0', List.tail_cons] at hmem hnotail
      rcases List.mem_cons.mp hmem with he0 | he1
      · rw [List.head?_cons, ← hey, he0]
      · exact absurd he1 hnotail

set_option maxHeartbeats 2000000 in
theorem evalTrace_C9 : ebTrace [] [] ["a"] ["2025-01", "2025-01"] [("a", 7)] =
    [("2025-01", [("a", ebC9)]), ("2025-01", [("a", ebC9)])] := by
  norm_num [ebTrace, processMonthAccounts, computeCell,
    resolveAnchor, netAfter, filterOccurrencesForWindow, filterCheckpointsForWindow,
    sortIsoStrings, sortLe, insertLe, cpLeTs, keepAfterAnchor, recordGet?, recordSet,
    mkMonthCell, ebC9,
    show parseYM "2025-01" = some (2025, 1) from by decide,
    show dateUtcMs 2025 0 = 1735689600000 from by decide,
    show dateUtcMs 2025 1 = 1738368000000 from by decide]

set_option maxHeartbeats 2000000 in
theorem evalM_C9 : computeEndingBalances ["2025-01", "2025-01"] [] [("a", 7)] [] =
    .ok [("2025-01", [("a", ebC9)])] := by
  norm_num [computeEndingBalances, ebGo, processMonthAccounts, computeCell,
    resolveAnchor, netAfter, filterOccurrencesForWindow, filterCheckpointsForWindow,
    sortIsoStrings, sortLe, insertLe, cpLeTs, keepAfterAnchor, recordGet?, recordSet,
    mkMonthCell, jsStrLe, ebC9,
    show listAccounts [] [] [("a", (7 : ℚ))] = ["a"] from by decide,
    show parseYM "2025-01" = some (2025, 1) from by decide,
    show dateUtcMs 2025 0 = 1735689600000 from by decide,
    show dateUtcMs 2025 1 = 1738368000000 from by decide]

/-- Witness for C9: the duplicate-month theorem applied to a run that
processes 2025-01 twice. -/
theorem c9_duplicate_months_witness :
    (∃ y m, parseYM "2025-01" = some (y, m) ∧
      ebC9 = mkMonthCell "2025-01" "a" (computeCell [] [] (some ebC9.balance) "a"
        (dateUtcMs y (m - 1)) (dateUtcMs y m))) ∧
    (∃ e, ((ebTrace [] [] (listAccounts [] [] [("a", 7)])
        (sortLe jsStrLe ["2025-01", "2025-01"]) [("a", 7)]).filter
          (fun t => t.1 = "2025-01")).getLast? = some e ∧
      recordGet? [("2025-01", [("a", ebC9)])] "2025-01" = some e.2) :=
  c9_duplicate_months ["2025-01", "2025-01"] [] [("a", 7)] []
    [("2025-01", [("a", ebC9)])] (by decide) evalM_C9 0 "2025-01"
    [("a", ebC9)] [("a", ebC9)]
    (by rw [show listAccounts [] [] [("a", (7 : ℚ))] = ["a"] from by decide,
      show sortLe jsStrLe ["2025-01", "2025-01"] = ["2025-01", "2025-01"] from by decide,
      evalTrace_C9]; rfl)
    (by rw [show listAccounts [] [] [("a", (7 : ℚ))] = ["a"] from by decide,
      show sortLe jsStrLe ["2025-01", "2025-01"] = ["2025-01", "2025-01"] from by decide,
      evalTrace_C9]; rfl)
    "a" ebC9 ebC9 rfl rfl

set_option maxHeartbeats 2000000 in
theorem evalM_C10 : computeEndingBalances ["2025-01"] occC10 [] [] =
    .ok [("2025-01", [("a", ebC10)])] := by
  norm_num [computeEndingBalances, ebGo, processMonthAccounts, computeCell,
    resolveAnchor, netAfter, filterOccurrencesForWindow, filterCheckpointsForWindow,
    sortIsoStrings, sortLe, insertLe, cpLeTs, keepAfterAnchor, recordGet?, recordSet,
    mkMonthCell, jsStrLe, occC10, ebC10,
    show listAccounts occC10 [] [] = ["a"] from by decide,
    show parseYM "2025-01" = some (2025, 1) from by decide,
    show dateUtcMs 2025 0 = 1735689600000 from by decide,
    show dateUtcMs 2025 1 = 1738368000000 from by decide]

/-- Witness for C10: the earliest-month theorem applied to a run whose one
account starts uninitialized. -/
theorem c10_initial_only_earliest_witness :
    (sortLe jsStrLe ["2025-01"]).head? = some "2025-01" ∧
    (∀ e ∈ (ebTrace occC10 [] (listAccounts occC10 [] [])
        (sortLe jsStrLe ["2025-01"]) []).tail,
      ∀ (b : String) (d : EndingBalanceCell), recordGet? e.2 b = some d →
        d.anchor.source ≠ AnchorSource.initial) :=
  c10_initial_only_earliest ["2025-01"] occC10 [] [] [("2025-01", [("a", ebC10)])]
    (by decide) evalM_C10 "2025-01" [("a", ebC10)] rfl "a" ebC10 rfl rfl

